import Mathlib

/-!
# FastCGI client (`http/fcgi/protocol.go`): shallow embedding

The Go client is embedded as state-passing functions over `CgiClient`.
Everything the client does to the outside world is appended to `CgiClient.trace`
(pool calls, transport writes, the start of the response collector, the close
of the transport), so that temporal statements are statements about a list.

Bytes are natural numbers below 256, Go strings and byte slices are lists of
bytes.  Collaborators whose behaviour is not fixed by `protocol.go` (the
transport, the request reader, the id pool, the scheduler that decides the
`select`, the iteration order of Go maps) are inputs: scripts stored in the
state, or fields of `Oracle`.
-/

namespace Fcgi

/-- A Go byte slice or string: a list of bytes. -/
abbrev Bytes := List Nat

/-- The bytes of an ASCII literal. -/
def ascii (s : String) : Bytes := s.toList.map Char.toNat

/-- Go `error` values that the client produces or passes on. -/
inductive GoError where
  /-- the value `io.EOF` -/
  | eof
  /-- the error of `strconv.Atoi` on the given input -/
  | numError (s : Bytes)
  /-- the value built by `errors.New("502 timeout")` -/
  | timeout502
  /-- any other error of a collaborator (transport, reader, `buildEnv`) -/
  | other (code : Nat)
  deriving DecidableEq, Repr

/-! ## Constants (`protocol.go` lines 15-43) -/

def typeBeginRequest : Nat := 1
def typeAbortRequest : Nat := 2
def typeEndRequest : Nat := 3
def typeParams : Nat := 4
def typeStdin : Nat := 5
def typeStdout : Nat := 6
def typeStderr : Nat := 7
def typeData : Nat := 8
def typeGetValues : Nat := 9
def typeGetValuesResult : Nat := 10
def typeUnknownType : Nat := 11

def flagKeepConn : Nat := 1

def roleResponder : Nat := 1
def roleAuthorizer : Nat := 2
def roleFilter : Nat := 3

def statusRequestComplete : Nat := 0
def statusCantMultiplex : Nat := 1
def statusOverloaded : Nat := 2
def statusUnknownRole : Nat := 3

/-! ## Record header -/

/-- Modelled from the spec: the type `header` is declared outside `protocol.go`.
Spec, section 3: protocol version (1 byte), record type (1 byte), request id
(2 bytes), content length (2 bytes), padding length (1 byte), reserved (1 byte). -/
structure header where
  Version : Nat
  Type_ : Nat
  Id : Nat
  ContentLength : Nat
  PaddingLength : Nat
  Reserved : Nat
  deriving DecidableEq, Repr

/-- Modelled from the spec: `header.init` is defined outside `protocol.go`.
Spec, section 3: the version is constant, the content length is a 16-bit field,
`padding length = (8 - content length mod 8) mod 8`, reserved is zero on write. -/
def header.init (recType reqId contentLength : Nat) : header :=
  { Version := 1
    Type_ := recType % 256
    Id := reqId % 65536
    ContentLength := contentLength % 65536
    PaddingLength := (8 - contentLength % 8) % 8
    Reserved := 0 }

/-- The eight bytes `binary.Write(&buf, binary.BigEndian, h)` appends: the fields
in declaration order, the 16-bit ones most significant byte first. -/
def header.encode (h : header) : Bytes :=
  [h.Version % 256, h.Type_ % 256, h.Id / 256 % 256, h.Id % 256,
   h.ContentLength / 256 % 256, h.ContentLength % 256, h.PaddingLength % 256,
   h.Reserved % 256]

/-- Modelled from the spec: the array `pad` is declared outside `protocol.go`;
padding bytes carry no information and are written as zeros. -/
def pad : Bytes := List.replicate 255 0

/-! ## State -/

/-- A Go `map[string]string`: an association list without repeated keys. -/
abbrev GoMap := List (Bytes × Bytes)

/-- The assignment `m[k] = v`. -/
def GoMap.set : GoMap → Bytes → Bytes → GoMap
  | [], k, v => [(k, v)]
  | (k0, v0) :: rest, k, v =>
    if k0 = k then (k0, v) :: rest else (k0, v0) :: GoMap.set rest k v

/-- The expression `m[k]`: the zero value `""` when the key is absent. -/
def GoMap.get : GoMap → Bytes → Bytes
  | [], _ => []
  | (k0, v0) :: rest, k => if k0 = k then v0 else GoMap.get rest k

/-- One event visible outside the client. -/
inductive Event where
  /-- the call `pool.Alloc()` returned this id -/
  | alloc (id : Nat)
  /-- the call `pool.Release(id)` -/
  | release (id : Nat)
  /-- the call `cgi.rwc.Write(bytes)` -/
  | write (bytes : Bytes)
  /-- the statement `go readResponse(cgi, res)` -/
  | goReadResponse
  /-- the call `cgi.rwc.Close()` -/
  | close
  deriving DecidableEq, Repr

/-- Modelled from the spec: the type `record` and its methods `read` and `content`
are defined outside `protocol.go`.  Spec, section 3: a record is a header plus a
content buffer whose length equals the content-length field of the header. -/
structure record where
  h : header
  buf : Bytes
  deriving DecidableEq, Repr

/-- Modelled from the spec: `record.content`, the content buffer of the record. -/
def record.content (r : record) : Bytes := r.buf

/-- What one call `rec.read(cgi.rwc)` yields: a record, or an error (`io.EOF` when
the peer closed the transport). -/
inductive ReadOutcome where
  | ok (r : record)
  | fail (e : GoError)
  deriving DecidableEq, Repr

/-- The fields of `*Request` that `protocol.go` uses.  `Rwc`, the reader of the
inbound connection, is given by the results of its coming calls: `lines` for
`ReadLine` (line and error), `reads` for `Read` (the bytes stored in `p[:count]`
and the error).  When a script is used up the reader reports `io.EOF` with no
data.  All `ReadLine` calls of a session precede all its `Read` calls, so two
scripts lose no behaviour. -/
structure Request where
  Id : Nat
  KeepConn : Bool
  Method : Bytes
  Header : GoMap
  lines : List (Bytes × Option GoError)
  reads : List (Bytes × Option GoError)
  deriving DecidableEq, Repr

/-- The client.  `wres` holds the errors the transport returns to the coming
`Write` calls (`none`: the write succeeds; a used-up list: every further write
succeeds), `rres` what the transport delivers to the coming `rec.read` calls (a
used-up list: the read blocks for ever).  The mutex is not modelled: the
session controller is the only writer. -/
structure CgiClient where
  trace : List Event
  wres : List (Option GoError)
  rres : List ReadOutcome
  h : header
  buf : Bytes
  request : Request
  deriving DecidableEq, Repr

/-- The call `cgi.rwc.Write(p)`. -/
def rwcWrite (cgi : CgiClient) (p : Bytes) : Option GoError × CgiClient :=
  match cgi.wres with
  | [] => (none, { cgi with trace := cgi.trace ++ [Event.write p] })
  | r :: rest => (r, { cgi with trace := cgi.trace ++ [Event.write p], wres := rest })

/-! ## Record writers (`protocol.go` lines 71-108) -/

/-- `writeRecord`: reset the scratch buffer, build the header, append header,
content and padding, and hand the buffer to the transport in one `Write`.
Writes into a `bytes.Buffer` do not fail. -/
def writeRecord (cgi : CgiClient) (recType reqId : Nat) (content : Bytes) :
    Option GoError × CgiClient :=
  let h := header.init recType reqId content.length
  let buf0 : Bytes := []
  let buf1 := buf0 ++ h.encode
  let buf2 := buf1 ++ content
  let buf3 := buf2 ++ pad.take h.PaddingLength
  rwcWrite { cgi with h := h, buf := buf3 } buf3

/-- `writeAbortRequest`. -/
def writeAbortRequest (cgi : CgiClient) (reqId : Nat) : Option GoError × CgiClient :=
  writeRecord cgi typeAbortRequest reqId []

/-- `writeBeginRequest`; `role` and `flags` are `uint8` in the source, so
`role >> 8` is taken on the 8-bit value. -/
def writeBeginRequest (cgi : CgiClient) (reqId role flags : Nat) :
    Option GoError × CgiClient :=
  let role8 := role % 256
  let b : Bytes := [role8 / 256 % 256, role8 % 256, flags % 256, 0, 0, 0, 0, 0]
  writeRecord cgi typeBeginRequest reqId b

/-- The conversion `uint32(appStatus)` of a Go `int`. -/
def toUint32 (x : Int) : Nat := (x % 4294967296).toNat

/-- The four bytes `binary.BigEndian.PutUint32` stores. -/
def putUint32 (v : Nat) : Bytes :=
  [v / 16777216 % 256, v / 65536 % 256, v / 256 % 256, v % 256]

/-- `writeEndRequest`: eight zero bytes, the first four overwritten with the
application status, the fifth with the protocol status. -/
def writeEndRequest (cgi : CgiClient) (reqId : Nat) (appStatus : Int)
    (protocolStatus : Nat) : Option GoError × CgiClient :=
  let b : Bytes := List.replicate 8 0
  let b := putUint32 (toUint32 appStatus) ++ b.drop 4
  let b := b.set 4 (protocolStatus % 256)
  writeRecord cgi typeEndRequest reqId b

/-! ## Stream writer -/

/-- The largest content of one record. -/
def maxWrite : Nat := 65535

/-- Modelled from the spec: `newWriter` and the writer it returns are defined
outside `protocol.go`.  Spec, section 4.1: the payload of a Params or Stdin stream
is split into records of at most 65535 bytes each, and the stream ends with one
record of content length 0.  The writer keeps the payload not yet sent in
`pending`; an error of the transport is kept in `err` and returned by every
later `Write`. -/
structure bufWriter where
  recType : Nat
  reqId : Nat
  pending : Bytes
  err : Option GoError
  deriving DecidableEq, Repr

/-- Modelled from the spec: `newWriter(cgi, recType, reqId)`, an empty stream. -/
def newWriter (recType reqId : Nat) : bufWriter :=
  { recType := recType, reqId := reqId, pending := [], err := none }

/-- Modelled from the spec: while more than `maxWrite` bytes are pending, send the
first `maxWrite` of them as one record.  `fuel` bounds the number of records. -/
def bufWriter.drain : Nat → CgiClient → bufWriter → CgiClient × bufWriter
  | 0, cgi, w => (cgi, w)
  | fuel + 1, cgi, w =>
    if maxWrite < w.pending.length then
      match writeRecord cgi w.recType w.reqId (w.pending.take maxWrite) with
      | (some e, cgi1) => (cgi1, { w with err := some e })
      | (none, cgi1) => bufWriter.drain fuel cgi1 { w with pending := w.pending.drop maxWrite }
    else (cgi, w)

/-- Modelled from the spec: `writer.Write(p)` and `writer.WriteString(p)`: add `p`
to the payload and send the records that are full. -/
def bufWriter.Write (cgi : CgiClient) (w : bufWriter) (p : Bytes) :
    Option GoError × CgiClient × bufWriter :=
  match w.err with
  | some e => (some e, cgi, w)
  | none =>
    let w1 := { w with pending := w.pending ++ p }
    let r := bufWriter.drain w1.pending.length cgi w1
    (r.2.err, r.1, r.2)

/-- Modelled from the spec: `writer.Close()`: send what is pending (unless an
earlier write failed), then the record of content length 0 that ends the
stream. -/
def bufWriter.Close (cgi : CgiClient) (w : bufWriter) : Option GoError × CgiClient :=
  match w.err with
  | some e => (some e, (writeRecord cgi w.recType w.reqId []).2)
  | none =>
    if w.pending.length = 0 then writeRecord cgi w.recType w.reqId []
    else
      match writeRecord cgi w.recType w.reqId w.pending with
      | (some e, cgi1) => (some e, (writeRecord cgi1 w.recType w.reqId []).2)
      | (none, cgi1) => writeRecord cgi1 w.recType w.reqId []

/-! ## Collaborators -/

/-- The inputs of a session that are decided outside `protocol.go`. -/
structure Oracle where
  /-- the id that `GetIdPool(65535).Alloc()` returns -/
  allocId : Nat
  /-- the function `buildEnv`, defined outside `protocol.go`: error and pairs -/
  buildEnv : Request → Option GoError × GoMap
  /-- the order in which `range headers` visits the map -/
  rangeHeaders : GoMap → GoMap
  /-- the order in which `range pairs` visits the map -/
  rangePairs : GoMap → GoMap
  /-- the scheduler lets `timer.C` win the `select` -/
  timerFirst : Bool
  /-- the result of `strings.Map(unicode.ToUpper, s)`, by the Unicode tables of the
  Go library: what `strings.ToUpper` returns for a string with a byte above 127 -/
  unicodeUpper : Bytes → Bytes

/-! ## Params (`protocol.go` lines 110-163) -/

/-- `strings.Index(str, ":")` for a one-byte separator: the position of its first
occurrence, or -1. -/
def stringsIndex (str : Bytes) (c : Nat) : Int :=
  if c ∈ str then (str.indexOf c : Int) else -1

/-- `strings.ToUpper`: in a string of ASCII bytes the letters a-z are replaced by
A-Z; a string with a byte above 127 goes through the Unicode tables of the Go
library (which also rewrite invalid UTF-8), given here as `up`. -/
def stringsToUpper (up : Bytes → Bytes) (s : Bytes) : Bytes :=
  if s.all (fun b => decide (b < 128)) then
    s.map (fun b => if 97 ≤ b ∧ b ≤ 122 then b - 32 else b)
  else up s

/-- `strings.Replace(s, "-", "_", -1)`. -/
def stringsReplaceDash (s : Bytes) : Bytes :=
  s.map (fun b => if b = 45 then 95 else b)

/-- The loop of `writeHeader` that reads the inbound header lines (lines 116-134).
It returns the map and the results the reader still has to give. -/
def readHeaderLines :
    List (Bytes × Option GoError) → GoMap → GoMap × List (Bytes × Option GoError)
  | [], headers => (headers, [])
  | (line, err) :: rest, headers =>
    if line.length = 0 then (headers, rest)
    else if err = some GoError.eof then (headers, rest)
    else if err ≠ none then readHeaderLines rest headers
    else
      let s1 := stringsIndex line 58
      if 0 < s1 then
        readHeaderLines rest
          (headers.set (line.take s1.toNat) (line.drop (s1.toNat + 1)))
      else readHeaderLines rest headers

/-- Modelled from the spec: `encodeSize` is defined outside `protocol.go`.  Spec,
section 4.2: one byte `n` when `n <= 127`, else four bytes, big-endian, of
`0x80000000 | n`.  The argument is a `uint32`. -/
def encodeSize (size : Nat) : Bytes :=
  let size := size % 4294967296
  if 127 < size then putUint32 (size ||| 2147483648) else [size]

/-- The loop `for k, v := range headers` (lines 141-143), over the visiting order. -/
def addHttpHeaders (up : Bytes → Bytes) : GoMap → GoMap → GoMap
  | [], pairs => pairs
  | (k, v) :: rest, pairs =>
    addHttpHeaders up rest
      (pairs.set (ascii "HTTP_" ++ stringsReplaceDash (stringsToUpper up k)) v)

/-- The loop `for k, v := range pairs` (lines 147-161), over the visiting order. -/
def writePairs (cgi : CgiClient) (w : bufWriter) :
    GoMap → Option GoError × CgiClient × bufWriter
  | [] => (none, cgi, w)
  | (k, v) :: rest =>
    let b := encodeSize k.length ++ encodeSize v.length
    match bufWriter.Write cgi w b with
    | (some e, cgi1, w1) => (some e, cgi1, w1)
    | (none, cgi1, w1) =>
      match bufWriter.Write cgi1 w1 k with
      | (some e, cgi2, w2) => (some e, cgi2, w2)
      | (none, cgi2, w2) =>
        match bufWriter.Write cgi2 w2 v with
        | (some e, cgi3, w3) => (some e, cgi3, w3)
        | (none, cgi3, w3) => writePairs cgi3 w3 rest

/-- `writeHeader`, called with `req = cgi.request`.  The deferred
`writer.Close()` runs on every return and its result is dropped. -/
def writeHeader (o : Oracle) (cgi : CgiClient) (recType reqId : Nat) :
    Option GoError × CgiClient :=
  let writer := newWriter recType reqId
  let r := readHeaderLines cgi.request.lines []
  let headers := r.1
  let cgi1 := { cgi with request := { cgi.request with lines := r.2 } }
  match o.buildEnv cgi1.request with
  | (some e, _) => (some e, (bufWriter.Close cgi1 writer).2)
  | (none, pairs) =>
    let pairs := addHttpHeaders o.unicodeUpper (o.rangeHeaders headers) pairs
    match writePairs cgi1 writer (o.rangePairs pairs) with
    | (some e, cgi2, w2) => (some e, (bufWriter.Close cgi2 w2).2)
    | (none, cgi2, w2) => (none, (bufWriter.Close cgi2 w2).2)

/-! ## Stdin (`protocol.go` lines 165-195) -/

/-- The value of a string of decimal digits. -/
def digitsValue (s : Bytes) : Nat := s.foldl (fun n ch => n * 10 + (ch - 48)) 0

/-- `strconv.Atoi` with a 64-bit `int`: an optional sign, then one or more
decimal digits; the value and the error.  On a syntax error the value is 0,
on a range error it is the nearest bound. -/
def Atoi (s : Bytes) : Int × Option GoError :=
  let neg : Bool := s.head? = some 45
  let ds : Bytes := if s.head? = some 45 ∨ s.head? = some 43 then s.drop 1 else s
  if ds.length = 0 ∨ ¬ (∀ b ∈ ds, 48 ≤ b ∧ b ≤ 57) then (0, some (GoError.numError s))
  else
    let n := digitsValue ds
    if neg then
      if n ≤ 9223372036854775808 then (-(n : Int), none)
      else (-9223372036854775808, some (GoError.numError s))
    else
      if n < 9223372036854775808 then ((n : Int), none)
      else (9223372036854775807, some (GoError.numError s))

/-- The loop of `writeBody` (lines 177-191) over the coming results of
`req.Rwc.Read(p)`: each is the bytes stored in `p[:count]` and the error.  It
returns the value of `err` at the `return`, and the results not yet used. -/
def readBody (cgi : CgiClient) (w : bufWriter) :
    List (Bytes × Option GoError) →
      Option GoError × CgiClient × bufWriter × List (Bytes × Option GoError)
  | [] => (none, cgi, w, [])
  | (p, e) :: rest =>
    if e ≠ none ∧ e ≠ some GoError.eof then (e, cgi, w, rest)
    else if p.length = 0 then (none, cgi, w, rest)
    else
      match bufWriter.Write cgi w p with
      | (some e1, cgi1, w1) => (some e1, cgi1, w1, rest)
      | (none, cgi1, w1) => readBody cgi1 w1 rest

/-- `writeBody`, called with `req = cgi.request`.  `err` is the named result:
the `:=` of line 170 assigns it, and line 172 resets `l` only.  The deferred
`writer.Close()` runs on every return and its result is dropped. -/
def writeBody (cgi : CgiClient) (recType reqId : Nat) : Option GoError × CgiClient :=
  let writer := newWriter recType reqId
  let a := Atoi (cgi.request.Header.get (ascii "CONTENT_LENGTH"))
  let err := a.2
  let l : Int := if err ≠ none then 0 else a.1
  if 0 < l then
    let r := readBody cgi writer cgi.request.reads
    let cgi1 := { r.2.1 with request := { r.2.1.request with reads := r.2.2.2 } }
    (r.1, (bufWriter.Close cgi1 r.2.2.1).2)
  else (err, (bufWriter.Close cgi writer).2)

/-! ## Response collector (`protocol.go` lines 271-307) -/

/-- A send on one of the two channels of `ResponseContent`. -/
inductive Signal where
  /-- the send `res.received <- true` -/
  | received
  /-- the send `res.err <- e` -/
  | err (e : GoError)
  deriving DecidableEq, Repr

/-- Modelled from the spec: the type `ResponseContent` is declared outside
`protocol.go`: the accumulated buffer and the two channels, here the list of
sends made so far. -/
structure ResponseContent where
  buf : Bytes
  signals : List Signal
  deriving DecidableEq, Repr

/-- Modelled from the spec: `ResponseContent.content` is defined outside
`protocol.go`.  Spec, section 4.5: the result is the accumulated buffer of the
collector. -/
def ResponseContent.content (res : ResponseContent) : Bytes := res.buf

/-- `readResponse` over the coming results of `rec.read(cgi.rwc)`.  When they are
used up the collector blocks in `read` and sends nothing. -/
def readResponse : List ReadOutcome → ResponseContent → ResponseContent
  | [], res => res
  | ReadOutcome.fail err1 :: _, res =>
    if err1 ≠ GoError.eof then { res with signals := res.signals ++ [Signal.err err1] }
    else { res with signals := res.signals ++ [Signal.received] }
  | ReadOutcome.ok rec :: rest, res =>
    if rec.h.Type_ = typeStdout then
      readResponse rest { res with buf := res.buf ++ rec.content }
    else if rec.h.Type_ = typeStderr then
      readResponse rest { res with buf := res.buf ++ rec.content }
    else if rec.h.Type_ = typeEndRequest then
      { buf := res.content ++ rec.content, signals := res.signals ++ [Signal.received] }
    else readResponse rest res

/-! ## Session controller (`protocol.go` lines 202-269) -/

/-- The deferred function of `DoRequest` (lines 208-213). -/
def deferred (cgi : CgiClient) (reqId : Nat) : CgiClient :=
  let cgi1 := { cgi with trace := cgi.trace ++ [Event.release reqId] }
  let cgi2 := (writeEndRequest cgi1 reqId 200 0).2
  let cgi3 := { cgi2 with trace := cgi2.trace ++ [Event.release reqId] }
  { cgi3 with trace := cgi3.trace ++ [Event.close] }

/-- The `select` of `DoRequest` (lines 250-266) once the collector runs: the
timer wins when the scheduler says so or when the collector never sends. -/
def awaitResponse (o : Oracle) (cgi : CgiClient) (reqId : Nat) (res : ResponseContent) :
    (Option Bytes × Option GoError) × CgiClient :=
  match (if o.timerFirst then none else res.signals.head?) with
  | none =>
    let cgi1 := (writeEndRequest cgi reqId 502 1).2
    ((none, some GoError.timeout502), cgi1)
  | some Signal.received => ((some res.content, none), cgi)
  | some (Signal.err e) => ((none, some e), cgi)

/-- The body of `DoRequest` after the `defer` statement (lines 215-268): the
results `retout` (`none` is the nil slice) and `err`. -/
def doRequestBody (o : Oracle) (cgi : CgiClient) (reqId : Nat) :
    (Option Bytes × Option GoError) × CgiClient :=
  let cgi := { cgi with request := { cgi.request with Id := reqId } }
  let r :=
    if cgi.request.KeepConn then writeBeginRequest cgi reqId roleResponder 1
    else writeBeginRequest cgi reqId roleResponder 0
  match r with
  | (some e, cgi1) => ((none, some e), cgi1)
  | (none, cgi1) =>
    match writeHeader o cgi1 typeParams reqId with
    | (some e, cgi2) => ((none, some e), cgi2)
    | (none, cgi2) =>
      let rb :=
        if cgi2.request.Method ≠ ascii "GET" ∧ cgi2.request.Method ≠ ascii "HEAD" then
          writeBody cgi2 typeStdin reqId
        else (none, cgi2)
      match rb with
      | (some e, cgi3) => ((none, some e), cgi3)
      | (none, cgi3) =>
        let res : ResponseContent := { buf := [], signals := [] }
        let cgi4 := { cgi3 with trace := cgi3.trace ++ [Event.goReadResponse] }
        awaitResponse o cgi4 reqId (readResponse cgi4.rres res)

/-- `DoRequest`: take an id from the pool, run the body, then the deferred
function. -/
def DoRequest (o : Oracle) (cgi : CgiClient) :
    (Option Bytes × Option GoError) × CgiClient :=
  let reqId := o.allocId
  let cgi0 := { cgi with trace := cgi.trace ++ [Event.alloc reqId] }
  let r := doRequestBody o cgi0 reqId
  (r.1, deferred r.2 reqId)

/-! ## Vocabulary of the statements -/

/-- The bytes of one record on the wire: what `writeRecord` hands to the
transport for this type, request id and content. -/
def recordBytes (recType reqId : Nat) (content : Bytes) : Bytes :=
  (header.init recType reqId content.length).encode ++ content ++
    pad.take (header.init recType reqId content.length).PaddingLength

/-- The event is the write of one record of this type for this request id. -/
def IsRecord (recType reqId : Nat) (e : Event) : Prop :=
  ∃ content, e = Event.write (recordBytes recType reqId content)

/-- The second client state continues the first: its trace is the first trace
followed by events that all satisfy `P`, and the read side of the transport is
untouched. -/
def Ext (P : Event → Prop) (c c1 : CgiClient) : Prop :=
  (∃ added, c1.trace = c.trace ++ added ∧ ∀ e ∈ added, P e) ∧ c1.rres = c.rres ∧
    c1.request = c.request

/-- The trace and the read side only: the request may have been advanced. -/
def ExtT (P : Event → Prop) (c c1 : CgiClient) : Prop :=
  (∃ added, c1.trace = c.trace ++ added ∧ ∀ e ∈ added, P e) ∧ c1.rres = c.rres

/-- The value of `l` when `writeBody` reaches line 174. -/
def bodyLength (cgi : CgiClient) : Int :=
  if (Atoi (cgi.request.Header.get (ascii "CONTENT_LENGTH"))).2 ≠ none then 0
  else (Atoi (cgi.request.Header.get (ascii "CONTENT_LENGTH"))).1

/-- The state and error after the BeginRequest step of `DoRequest` (lines 215-222). -/
def afterBegin (cgi : CgiClient) (reqId : Nat) : Option GoError × CgiClient :=
  writeBeginRequest { cgi with request := { cgi.request with Id := reqId } } reqId
    roleResponder (if cgi.request.KeepConn then 1 else 0)

/-- The state and error after the Params step of `DoRequest` (line 228). -/
def afterParams (o : Oracle) (cgi : CgiClient) (reqId : Nat) : Option GoError × CgiClient :=
  writeHeader o (afterBegin cgi reqId).2 typeParams reqId

/-- The state and error after the Stdin step of `DoRequest` (lines 235-240). -/
def afterStdin (o : Oracle) (cgi : CgiClient) (reqId : Nat) : Option GoError × CgiClient :=
  if cgi.request.Method ≠ ascii "GET" ∧ cgi.request.Method ≠ ascii "HEAD" then
    writeBody (afterParams o cgi reqId).2 typeStdin reqId
  else (none, (afterParams o cgi reqId).2)

/-- The events of a session that precede the deferred function are record writes
of the four types the controller uses (Stdin only for a method that is neither
GET nor HEAD), or the start of the collector. -/
def SessionEvent (method : Bytes) (reqId : Nat) (e : Event) : Prop :=
  IsRecord typeBeginRequest reqId e ∨ IsRecord typeParams reqId e ∨
    ((method ≠ ascii "GET" ∧ method ≠ ascii "HEAD") ∧ IsRecord typeStdin reqId e) ∨
    IsRecord typeEndRequest reqId e ∨ e = Event.goReadResponse

/-- The protocol status of an EndRequest record on the wire: byte 4 of its body,
which follows the 8 bytes of the header. -/
def Event.endRequestStatus : Event → Option Nat
  | Event.write b => if b.get? 1 = some typeEndRequest then b.get? 12 else none
  | _ => none

/-- The protocol statuses of the EndRequest records of a trace, in order. -/
def endRequestStatuses (trace : List Event) : List Nat :=
  trace.filterMap Event.endRequestStatus

/-- The read result is a record, and not an EndRequest record: the collector goes
on reading after it. -/
def ReadOutcome.continues : ReadOutcome → Bool
  | ReadOutcome.ok r => decide (r.h.Type_ ≠ typeEndRequest)
  | ReadOutcome.fail _ => false

/-- The contents of the Stdout and Stderr records of a list of read results,
concatenated in arrival order. -/
def stdoutStderr : List ReadOutcome → Bytes
  | [] => []
  | ReadOutcome.ok r :: rest =>
    (if r.h.Type_ = typeStdout ∨ r.h.Type_ = typeStderr then r.content else []) ++
      stdoutStderr rest
  | ReadOutcome.fail _ :: rest => stdoutStderr rest

/-- The three write steps of the session return no error, so that `DoRequest`
starts the collector and reaches the `select`. -/
def ReachesSelect (o : Oracle) (cgi : CgiClient) : Prop :=
  (afterBegin { cgi with trace := cgi.trace ++ [Event.alloc o.allocId] } o.allocId).1 = none ∧
  (afterParams o { cgi with trace := cgi.trace ++ [Event.alloc o.allocId] } o.allocId).1
    = none ∧
  (afterStdin o { cgi with trace := cgi.trace ++ [Event.alloc o.allocId] } o.allocId).1
    = none

instance (o : Oracle) (cgi : CgiClient) : Decidable (ReachesSelect o cgi) := by
  unfold ReachesSelect
  infer_instance

/-- The client when `DoRequest` enters the `select`: the three write steps are
done and the collector has been started. -/
def atSelect (o : Oracle) (cgi : CgiClient) : CgiClient :=
  { (afterStdin o { cgi with trace := cgi.trace ++ [Event.alloc o.allocId] } o.allocId).2 with
    trace :=
      (afterStdin o { cgi with trace := cgi.trace ++ [Event.alloc o.allocId] } o.allocId).2.trace
        ++ [Event.goReadResponse] }

/-- The transport accepts every coming write. -/
def NoFail (cgi : CgiClient) : Prop := ∀ r ∈ cgi.wres, r = none

/-- The writes of one stream: one record for each chunk of content. -/
def chunkWrites (recType reqId : Nat) (chunks : List Bytes) : List Event :=
  chunks.map (fun c => Event.write (recordBytes recType reqId c))

/-- Every chunk is non-empty and fits one record. -/
def GoodChunks (chunks : List Bytes) : Prop := ∀ c ∈ chunks, c ≠ [] ∧ c.length ≤ maxWrite

/-- The bytes a body source yields before its first empty read or its first
error other than `io.EOF`. -/
def sourceBytes : List (Bytes × Option GoError) → Bytes
  | [] => []
  | (p, e) :: rest =>
    if e ≠ none ∧ e ≠ some GoError.eof then []
    else if p.length = 0 then []
    else p ++ sourceBytes rest

/-- A step of a stream writer on a transport that accepts every write: from
client `c` and writer `w` to `c1` and `w1`, taking `payload` and sending
`chunks` as records. -/
structure Sends (c : CgiClient) (w : bufWriter) (c1 : CgiClient) (w1 : bufWriter)
    (payload : Bytes) (chunks : List Bytes) : Prop where
  trace : c1.trace = c.trace ++ chunkWrites w.recType w.reqId chunks
  good : GoodChunks chunks
  bytes : chunks.flatten ++ w1.pending = w.pending ++ payload
  bound : w1.pending.length ≤ maxWrite
  small : w.pending.length + payload.length ≤ maxWrite → chunks = []
  err : w1.err = none
  noFail : NoFail c1
  request : c1.request = c.request
  recType : w1.recType = w.recType
  reqId : w1.reqId = w.reqId

/-! ## Sample inputs -/

/-- A pool that hands out id 7, an environment of one pair, maps visited in
insertion order.  The sample header names are ASCII, so `unicodeUpper` is not
consulted. -/
def sampleOracle (timerFirst : Bool) : Oracle :=
  { allocId := 7
    buildEnv := fun _ => (none, [(ascii "A", ascii "b")])
    rangeHeaders := fun m => m
    rangePairs := fun m => m
    timerFirst := timerFirst
    unicodeUpper := fun s => s }

/-- A request with the given method, header map and body reads. -/
def sampleRequest (method : Bytes) (hdr : GoMap) (reads : List (Bytes × Option GoError)) :
    Request :=
  { Id := 0, KeepConn := true, Method := method, Header := hdr, lines := [], reads := reads }

/-- A fresh client whose transport accepts every write and delivers `rres`. -/
def sampleClient (req : Request) (rres : List ReadOutcome) : CgiClient :=
  { trace := [], wres := [], rres := rres, h := header.init 0 0 0, buf := [], request := req }

/-- A record of the given type and content as the responder sends it. -/
def sampleRecord (t : Nat) (content : Bytes) : ReadOutcome :=
  ReadOutcome.ok { h := header.init t 7 content.length, buf := content }


/-! ## Vocabulary for the record layout, the collector and the pool -/

/-- The send that the collector makes when a read result ends its loop: the
error signal for a read error other than `io.EOF`, the completion signal for
`io.EOF` and for an EndRequest record. -/
def ReadOutcome.signal : ReadOutcome → Signal
  | ReadOutcome.fail e => if e ≠ GoError.eof then Signal.err e else Signal.received
  | ReadOutcome.ok _ => Signal.received

/-- Modelled from the spec: the failure of the request-id pool (section 7,
`PoolExhausted`: no request id available). -/
inductive PoolError where
  | PoolExhausted
  deriving DecidableEq, Repr

/-- Modelled from the spec: the request-id pool; `GetIdPool`, `Alloc` and `Release`
are defined outside `protocol.go`.  Spec, sections 3 and 4.3: a pool of size `N`
hands out the ids of `[1, N]`, never 0; `held` are the ids allocated and not yet
released. -/
structure IdPool where
  size : Nat
  held : List Nat
  deriving DecidableEq, Repr

/-- Modelled from the spec: the ids of `[1, N]` that are free. -/
def IdPool.freeIds (p : IdPool) : List Nat :=
  (List.range' 1 p.size).filter (fun i => decide (i ∉ p.held))

/-- Modelled from the spec: `alloc() → id`, which fails with `PoolExhausted` if no
id in `[1, N]` is free.  The spec leaves open which free id is taken; this is
the lowest. -/
def IdPool.Alloc (p : IdPool) : Except PoolError (Nat × IdPool) :=
  match p.freeIds with
  | [] => Except.error PoolError.PoolExhausted
  | id :: _ => Except.ok (id, { p with held := id :: p.held })

/-- How a call of `DoRequest` ends: with its two results, or with the failure of
`pool.Alloc()`. -/
inductive Outcome where
  | returned (retout : Option Bytes) (err : Option GoError)
  | failed (e : PoolError)
  deriving DecidableEq, Repr

/-- `DoRequest` with the pool made explicit.  `Alloc` has one result (line 206:
`reqId := pool.Alloc()`), so its failure is not a value that `DoRequest` tests:
it ends the call at line 206, before the `defer` of line 208 and before any
write.  When `Alloc` gives an id the session runs with it. -/
def DoRequestFromPool (p : IdPool) (o : Oracle) (cgi : CgiClient) : Outcome × CgiClient :=
  match p.Alloc with
  | Except.error e => (Outcome.failed e, cgi)
  | Except.ok (id, _) =>
    let r := DoRequest { o with allocId := id } cgi
    (Outcome.returned r.1.1 r.1.2, r.2)

/-- A fresh client whose transport answers the coming writes with `wres`. -/
def sampleClientWrites (wres : List (Option GoError)) (req : Request)
    (rres : List ReadOutcome) : CgiClient :=
  { sampleClient req rres with wres := wres }

/-! ## Vocabulary for the environment of the Params stream -/

/-- The name of the variable that line 142 builds for the inbound header `k`. -/
def httpName (up : Bytes → Bytes) (k : Bytes) : Bytes :=
  ascii "HTTP_" ++ stringsReplaceDash (stringsToUpper up k)

/-- The assignments `m[f k] = v` for the pairs of a list, in order. -/
def setAll (f : Bytes → Bytes) : List (Bytes × Bytes) → GoMap → GoMap
  | [], m => m
  | (k, v) :: rest, m => setAll f rest (m.set (f k) v)

/-- The map holds the variable `k` with value `v`. -/
def GoMap.Holds (m : GoMap) (k v : Bytes) : Prop := (k, v) ∈ m ∧ m.get k = v

/-- The inbound header line `name: value` as the reader returns it. -/
def headerLine (nv : Bytes × Bytes) : Bytes × Option GoError := (nv.1 ++ 58 :: nv.2, none)

/-- The results of the reader that come before the end of the headers: before the
first empty line and the first `io.EOF`. -/
def beforeEnd (lines : List (Bytes × Option GoError)) : List (Bytes × Option GoError) :=
  lines.takeWhile (fun r => decide (r.1.length ≠ 0) && decide (r.2 ≠ some GoError.eof))

/-- An inbound header line of the form `name ':' value` with a non-empty name: it is
read without error before the end of the headers, and `name` is what stands
before its first `:`. -/
def InboundHeader (lines : List (Bytes × Option GoError)) (name value : Bytes) : Prop :=
  name ≠ [] ∧ 58 ∉ name ∧ (name ++ 58 :: value, none) ∈ beforeEnd lines

/-- The environment map whose pairs `writeHeader` encodes when `buildEnv` returns
no error: the pairs of `buildEnv` with the `HTTP_` variables of lines 141-143. -/
def paramsEnv (o : Oracle) (cgi : CgiClient) : GoMap :=
  addHttpHeaders o.unicodeUpper (o.rangeHeaders (readHeaderLines cgi.request.lines []).1)
    (o.buildEnv { cgi.request with lines := (readHeaderLines cgi.request.lines []).2 }).2

/-- The bytes of one name-value pair: the two size fields, the key, the value. -/
def encodePair (kv : Bytes × Bytes) : Bytes :=
  encodeSize kv.1.length ++ encodeSize kv.2.length ++ kv.1 ++ kv.2

/-- The payload of the Params stream: the pairs of the environment in the order
in which `range pairs` visits them. -/
def paramsPayload (o : Oracle) (cgi : CgiClient) : Bytes :=
  ((o.rangePairs (paramsEnv o cgi)).map encodePair).flatten

/-- The two `range` loops visit every entry of their map exactly once. -/
def Oracle.Permutes (o : Oracle) : Prop :=
  (∀ m, (o.rangeHeaders m).Perm m) ∧ (∀ m, (o.rangePairs m).Perm m)

/-- An oracle like `sampleOracle` with an environment of two pairs and the given
visiting order for `range pairs`. -/
def sampleOracleOrder (rangePairs : GoMap → GoMap) : Oracle :=
  { allocId := 7
    buildEnv := fun _ => (none, [(ascii "A", ascii "b"), (ascii "C", ascii "d")])
    rangeHeaders := fun m => m
    rangePairs := rangePairs
    timerFirst := false
    unicodeUpper := fun s => s }

/-- A GET request whose reader returns the given lines. -/
def sampleRequestLines (lines : List (Bytes × Option GoError)) : Request :=
  { sampleRequest (ascii "GET") [] [] with lines := lines }

/-- A client whose reader returns a line without `:`, a line read with an error,
the lines `Accept-Language: en` and `Host: x`, then the empty line. -/
def sampleHeaderClient : CgiClient :=
  sampleClient (sampleRequestLines
    [(ascii "GET / HTTP/1.1", none), (ascii "X: y", some (GoError.other 1)),
      headerLine (ascii "Accept-Language", ascii " en"),
      headerLine (ascii "Host", ascii " x"), ([], none)]) []

/-- The events that can follow the Stdin step of a session: the start of the
collector, an EndRequest record, a release of the id, the close of the
transport. -/
def TailEvent (reqId : Nat) (e : Event) : Prop :=
  e = Event.goReadResponse ∨ IsRecord typeEndRequest reqId e ∨ e = Event.release reqId ∨
    e = Event.close

/-- The list is empty or ends with the empty record of the stream. -/
def EndsWithTerminator (recType reqId : Nat) (l : List Event) : Prop :=
  l = [] ∨ ∃ pre, l = pre ++ [Event.write (recordBytes recType reqId [])]

/-- The event is not the write of an EndRequest record: if it is a write, its
type byte is not 3. -/
def Event.notEndRequest (e : Event) : Prop :=
  ∀ b, e = Event.write b → b.get? 1 ≠ some typeEndRequest

/-! ## Lemmas: what each step appends to the trace -/

theorem Ext.refl (P : Event → Prop) (c : CgiClient) : Ext P c c :=
  ⟨⟨[], by simp, by simp⟩, rfl, rfl⟩

theorem Ext.trans {P : Event → Prop} {a b c : CgiClient} (h1 : Ext P a b) (h2 : Ext P b c) :
    Ext P a c := by
  obtain ⟨⟨l1, e1, p1⟩, r1, q1⟩ := h1
  obtain ⟨⟨l2, e2, p2⟩, r2, q2⟩ := h2
  refine ⟨⟨l1 ++ l2, by rw [e2, e1, List.append_assoc], ?_⟩, by rw [r2, r1], by rw [q2, q1]⟩
  intro e he
  rcases List.mem_append.mp he with h | h
  · exact p1 e h
  · exact p2 e h

theorem Ext.mono {P Q : Event → Prop} {a b : CgiClient} (h : Ext P a b)
    (hPQ : ∀ e, P e → Q e) : Ext Q a b := by
  obtain ⟨⟨l1, e1, p1⟩, r1, q1⟩ := h
  exact ⟨⟨l1, e1, fun e he => hPQ e (p1 e he)⟩, r1, q1⟩

theorem rwcWrite_trace (cgi : CgiClient) (p : Bytes) :
    (rwcWrite cgi p).2.trace = cgi.trace ++ [Event.write p] := by
  unfold rwcWrite
  split <;> rfl

theorem rwcWrite_rres (cgi : CgiClient) (p : Bytes) : (rwcWrite cgi p).2.rres = cgi.rres := by
  unfold rwcWrite
  split <;> rfl

theorem rwcWrite_request (cgi : CgiClient) (p : Bytes) :
    (rwcWrite cgi p).2.request = cgi.request := by
  unfold rwcWrite
  split <;> rfl

theorem writeRecord_trace (cgi : CgiClient) (t id : Nat) (content : Bytes) :
    (writeRecord cgi t id content).2.trace =
      cgi.trace ++ [Event.write (recordBytes t id content)] := by
  simp [writeRecord, rwcWrite_trace, recordBytes]

theorem writeRecord_rres (cgi : CgiClient) (t id : Nat) (content : Bytes) :
    (writeRecord cgi t id content).2.rres = cgi.rres := by
  simp [writeRecord, rwcWrite_rres]

theorem writeRecord_request (cgi : CgiClient) (t id : Nat) (content : Bytes) :
    (writeRecord cgi t id content).2.request = cgi.request := by
  simp [writeRecord, rwcWrite_request]

theorem writeRecord_ext (cgi : CgiClient) (t id : Nat) (content : Bytes) :
    Ext (IsRecord t id) cgi (writeRecord cgi t id content).2 := by
  refine ⟨⟨[Event.write (recordBytes t id content)], writeRecord_trace cgi t id content, ?_⟩,
    writeRecord_rres cgi t id content, writeRecord_request cgi t id content⟩
  intro e he
  exact ⟨content, by simpa using he⟩

theorem drain_ext (fuel : Nat) : ∀ (cgi : CgiClient) (w : bufWriter),
    Ext (IsRecord w.recType w.reqId) cgi (bufWriter.drain fuel cgi w).1 ∧
      (bufWriter.drain fuel cgi w).2.recType = w.recType ∧
      (bufWriter.drain fuel cgi w).2.reqId = w.reqId := by
  induction fuel with
  | zero => intro cgi w; exact ⟨Ext.refl _ _, rfl, rfl⟩
  | succ n ih =>
    intro cgi w
    unfold bufWriter.drain
    split
    · have hr := writeRecord_ext cgi w.recType w.reqId (w.pending.take maxWrite)
      split
      · next e cgi1 heq =>
        rw [heq] at hr
        exact ⟨hr, rfl, rfl⟩
      · next cgi1 heq =>
        rw [heq] at hr
        have h := ih cgi1 { w with pending := w.pending.drop maxWrite }
        exact ⟨Ext.trans hr h.1, h.2.1, h.2.2⟩
    · exact ⟨Ext.refl _ _, rfl, rfl⟩

theorem Write_ext (cgi : CgiClient) (w : bufWriter) (p : Bytes) :
    Ext (IsRecord w.recType w.reqId) cgi (bufWriter.Write cgi w p).2.1 ∧
      (bufWriter.Write cgi w p).2.2.recType = w.recType ∧
      (bufWriter.Write cgi w p).2.2.reqId = w.reqId := by
  unfold bufWriter.Write
  split
  · exact ⟨Ext.refl _ _, rfl, rfl⟩
  · exact drain_ext _ cgi { w with pending := w.pending ++ p }

theorem Close_ext (cgi : CgiClient) (w : bufWriter) :
    Ext (IsRecord w.recType w.reqId) cgi (bufWriter.Close cgi w).2 := by
  unfold bufWriter.Close
  split
  · exact writeRecord_ext _ _ _ _
  · split
    · exact writeRecord_ext _ _ _ _
    · have hr := writeRecord_ext cgi w.recType w.reqId w.pending
      split
      · next e cgi1 heq =>
        rw [heq] at hr
        exact Ext.trans hr (writeRecord_ext _ _ _ _)
      · next cgi1 heq =>
        rw [heq] at hr
        exact Ext.trans hr (writeRecord_ext _ _ _ _)

theorem writePairs_ext : ∀ (m : GoMap) (cgi : CgiClient) (w : bufWriter),
    Ext (IsRecord w.recType w.reqId) cgi (writePairs cgi w m).2.1 ∧
      (writePairs cgi w m).2.2.recType = w.recType ∧
      (writePairs cgi w m).2.2.reqId = w.reqId := by
  intro m
  induction m with
  | nil => intro cgi w; exact ⟨Ext.refl _ _, rfl, rfl⟩
  | cons kv rest ih =>
    intro cgi w
    obtain ⟨k, v⟩ := kv
    unfold writePairs
    dsimp only
    have h1 := Write_ext cgi w (encodeSize k.length ++ encodeSize v.length)
    split
    · next e cgi1 w1 heq =>
      rw [heq] at h1
      exact h1
    · next cgi1 w1 heq =>
      rw [heq] at h1
      have h2 := Write_ext cgi1 w1 k
      rw [h1.2.1, h1.2.2] at h2
      split
      · next e cgi2 w2 heq2 =>
        rw [heq2] at h2
        exact ⟨Ext.trans h1.1 h2.1, h2.2⟩
      · next cgi2 w2 heq2 =>
        rw [heq2] at h2
        have h3 := Write_ext cgi2 w2 v
        rw [h2.2.1, h2.2.2] at h3
        split
        · next e cgi3 w3 heq3 =>
          rw [heq3] at h3
          exact ⟨Ext.trans h1.1 (Ext.trans h2.1 h3.1), h3.2⟩
        · next cgi3 w3 heq3 =>
          rw [heq3] at h3
          have h4 := ih cgi3 w3
          rw [h3.2.1, h3.2.2] at h4
          exact ⟨Ext.trans h1.1 (Ext.trans h2.1 (Ext.trans h3.1 h4.1)), h4.2⟩

theorem readBody_ext : ∀ (reads : List (Bytes × Option GoError)) (cgi : CgiClient)
    (w : bufWriter),
    Ext (IsRecord w.recType w.reqId) cgi (readBody cgi w reads).2.1 ∧
      (readBody cgi w reads).2.2.1.recType = w.recType ∧
      (readBody cgi w reads).2.2.1.reqId = w.reqId := by
  intro reads
  induction reads with
  | nil => intro cgi w; exact ⟨Ext.refl _ _, rfl, rfl⟩
  | cons pe rest ih =>
    intro cgi w
    obtain ⟨p, e⟩ := pe
    unfold readBody
    split
    · exact ⟨Ext.refl _ _, rfl, rfl⟩
    · split
      · exact ⟨Ext.refl _ _, rfl, rfl⟩
      · have h1 := Write_ext cgi w p
        split
        · next e1 cgi1 w1 heq =>
          rw [heq] at h1
          exact h1
        · next cgi1 w1 heq =>
          rw [heq] at h1
          have h2 := ih cgi1 w1
          rw [h1.2.1, h1.2.2] at h2
          exact ⟨Ext.trans h1.1 h2.1, h2.2⟩

theorem Ext.toT {P : Event → Prop} {a b : CgiClient} (h : Ext P a b) : ExtT P a b :=
  ⟨h.1, h.2.1⟩

theorem ExtT.reflT (P : Event → Prop) (c : CgiClient) : ExtT P c c :=
  (Ext.refl P c).toT

theorem ExtT.transT {P : Event → Prop} {a b c : CgiClient} (h1 : ExtT P a b)
    (h2 : ExtT P b c) : ExtT P a c := by
  obtain ⟨⟨l1, e1, p1⟩, r1⟩ := h1
  obtain ⟨⟨l2, e2, p2⟩, r2⟩ := h2
  refine ⟨⟨l1 ++ l2, by rw [e2, e1, List.append_assoc], ?_⟩, by rw [r2, r1]⟩
  intro e he
  rcases List.mem_append.mp he with h | h
  · exact p1 e h
  · exact p2 e h

theorem ExtT.monoT {P Q : Event → Prop} {a b : CgiClient} (h : ExtT P a b)
    (hPQ : ∀ e, P e → Q e) : ExtT Q a b := by
  obtain ⟨⟨l1, e1, p1⟩, r1⟩ := h
  exact ⟨⟨l1, e1, fun e he => hPQ e (p1 e he)⟩, r1⟩

theorem ExtT.single {P : Event → Prop} (c : CgiClient) (e : Event) (h : P e) :
    ExtT P c { c with trace := c.trace ++ [e] } :=
  ⟨⟨[e], rfl, by simpa using h⟩, rfl⟩

theorem writeHeader_ext (o : Oracle) (cgi : CgiClient) (t id : Nat) :
    ExtT (IsRecord t id) cgi (writeHeader o cgi t id).2 ∧
      (writeHeader o cgi t id).2.request =
        { cgi.request with lines := (readHeaderLines cgi.request.lines []).2 } := by
  unfold writeHeader
  simp only
  split
  · next e m heq =>
    have h := Close_ext
      { cgi with request :=
        { cgi.request with lines := (readHeaderLines cgi.request.lines []).2 } }
      (newWriter t id)
    exact ⟨⟨h.1, h.2.1⟩, h.2.2⟩
  · next pairs heq =>
    have hp := writePairs_ext
      (o.rangePairs (addHttpHeaders o.unicodeUpper (o.rangeHeaders (readHeaderLines cgi.request.lines []).1)
        pairs))
      { cgi with request :=
        { cgi.request with lines := (readHeaderLines cgi.request.lines []).2 } }
      (newWriter t id)
    split
    · next e cgi2 w2 heq2 =>
      rw [heq2] at hp
      have hc := Close_ext cgi2 w2
      rw [hp.2.1, hp.2.2] at hc
      have h := Ext.trans hp.1 hc
      exact ⟨⟨h.1, h.2.1⟩, h.2.2⟩
    · next cgi2 w2 heq2 =>
      rw [heq2] at hp
      have hc := Close_ext cgi2 w2
      rw [hp.2.1, hp.2.2] at hc
      have h := Ext.trans hp.1 hc
      exact ⟨⟨h.1, h.2.1⟩, h.2.2⟩

theorem writeBody_eq (cgi : CgiClient) (t id : Nat) :
    writeBody cgi t id =
      if 0 < bodyLength cgi then
        ((readBody cgi (newWriter t id) cgi.request.reads).1,
          (bufWriter.Close
            { (readBody cgi (newWriter t id) cgi.request.reads).2.1 with
              request :=
                { (readBody cgi (newWriter t id) cgi.request.reads).2.1.request with
                  reads := (readBody cgi (newWriter t id) cgi.request.reads).2.2.2 } }
            (readBody cgi (newWriter t id) cgi.request.reads).2.2.1).2)
      else
        ((Atoi (cgi.request.Header.get (ascii "CONTENT_LENGTH"))).2,
          (bufWriter.Close cgi (newWriter t id)).2) := rfl

theorem writeBody_ext (cgi : CgiClient) (t id : Nat) :
    ExtT (IsRecord t id) cgi (writeBody cgi t id).2 := by
  rw [writeBody_eq]
  split
  · have hr := readBody_ext cgi.request.reads cgi (newWriter t id)
    have hc := Close_ext
      { (readBody cgi (newWriter t id) cgi.request.reads).2.1 with
        request := { (readBody cgi (newWriter t id) cgi.request.reads).2.1.request with
          reads := (readBody cgi (newWriter t id) cgi.request.reads).2.2.2 } }
      (readBody cgi (newWriter t id) cgi.request.reads).2.2.1
    rw [hr.2.1, hr.2.2] at hc
    exact ExtT.transT hr.1.toT ⟨hc.1, hc.2.1⟩
  · exact (Close_ext cgi (newWriter t id)).toT

theorem afterBegin_request (cgi : CgiClient) (id : Nat) :
    (afterBegin cgi id).2.request = { cgi.request with Id := id } := by
  unfold afterBegin writeBeginRequest
  rw [writeRecord_request]

theorem afterParams_request (o : Oracle) (cgi : CgiClient) (id : Nat) :
    (afterParams o cgi id).2.request =
      { cgi.request with
        Id := id, lines := (readHeaderLines cgi.request.lines []).2 } := by
  unfold afterParams
  rw [(writeHeader_ext o _ _ _).2, afterBegin_request]

theorem doRequestBody_eq (o : Oracle) (cgi : CgiClient) (id : Nat) :
    doRequestBody o cgi id =
      match (afterBegin cgi id).1 with
      | some e => ((none, some e), (afterBegin cgi id).2)
      | none =>
        match (afterParams o cgi id).1 with
        | some e => ((none, some e), (afterParams o cgi id).2)
        | none =>
          match (afterStdin o cgi id).1 with
          | some e => ((none, some e), (afterStdin o cgi id).2)
          | none =>
            awaitResponse o
              { (afterStdin o cgi id).2 with
                trace := (afterStdin o cgi id).2.trace ++ [Event.goReadResponse] }
              id (readResponse (afterStdin o cgi id).2.rres { buf := [], signals := [] }) := by
  have hb : (if ({ cgi with request := { cgi.request with Id := id } } : CgiClient).request.KeepConn
      then writeBeginRequest { cgi with request := { cgi.request with Id := id } } id
        roleResponder 1
      else writeBeginRequest { cgi with request := { cgi.request with Id := id } } id
        roleResponder 0) = afterBegin cgi id := by
    unfold afterBegin
    cases cgi.request.KeepConn <;> rfl
  unfold doRequestBody
  simp only []
  rw [hb]
  have hm : (afterParams o cgi id).2.request.Method = cgi.request.Method := by
    rw [afterParams_request]
  rcases h1 : afterBegin cgi id with ⟨_ | e1, cgi1⟩
  · simp only []
    have hp : writeHeader o cgi1 typeParams id = afterParams o cgi id := by
      unfold afterParams; rw [h1]
    rw [hp]
    rcases h2 : afterParams o cgi id with ⟨_ | e2, cgi2⟩
    · simp only []
      have hs : (if cgi2.request.Method ≠ ascii "GET" ∧ cgi2.request.Method ≠ ascii "HEAD" then
          writeBody cgi2 typeStdin id else (none, cgi2)) = afterStdin o cgi id := by
        unfold afterStdin
        rw [h2] at hm
        simp only [] at hm
        rw [h2, hm]
      rw [hs]
      rcases h3 : afterStdin o cgi id with ⟨_ | e3, cgi3⟩
      · rfl
      · rfl
    · rfl
  · rfl
theorem writeEndRequest_trace (cgi : CgiClient) (id : Nat) (a : Int) (p : Nat) :
    (writeEndRequest cgi id a p).2.trace =
      cgi.trace ++ [Event.write (recordBytes typeEndRequest id
        (putUint32 (toUint32 a) ++ [p % 256, 0, 0, 0]))] := by
  unfold writeEndRequest
  rw [writeRecord_trace]
  rfl

theorem writeEndRequest_rres (cgi : CgiClient) (id : Nat) (a : Int) (p : Nat) :
    (writeEndRequest cgi id a p).2.rres = cgi.rres := by
  unfold writeEndRequest
  rw [writeRecord_rres]

theorem writeEndRequest_ext (cgi : CgiClient) (id : Nat) (a : Int) (p : Nat) :
    ExtT (IsRecord typeEndRequest id) cgi (writeEndRequest cgi id a p).2 := by
  unfold writeEndRequest
  exact (writeRecord_ext _ _ _ _).toT

theorem afterBegin_trace (cgi : CgiClient) (id : Nat) :
    (afterBegin cgi id).2.trace =
      cgi.trace ++ [Event.write (recordBytes typeBeginRequest id
        [0, 1, if cgi.request.KeepConn then 1 else 0, 0, 0, 0, 0, 0])] := by
  unfold afterBegin writeBeginRequest
  rw [writeRecord_trace]
  cases cgi.request.KeepConn <;> rfl

theorem afterBegin_rres (cgi : CgiClient) (id : Nat) :
    (afterBegin cgi id).2.rres = cgi.rres := by
  unfold afterBegin writeBeginRequest
  rw [writeRecord_rres]

theorem afterBegin_ext (cgi : CgiClient) (id : Nat) :
    ExtT (IsRecord typeBeginRequest id) cgi (afterBegin cgi id).2 :=
  ⟨⟨_, afterBegin_trace cgi id, fun e he => ⟨_, by simpa using he⟩⟩, afterBegin_rres cgi id⟩

theorem afterParams_ext (o : Oracle) (cgi : CgiClient) (id : Nat) :
    ExtT (IsRecord typeParams id) (afterBegin cgi id).2 (afterParams o cgi id).2 :=
  (writeHeader_ext o _ _ _).1

theorem afterStdin_ext (o : Oracle) (cgi : CgiClient) (id : Nat) :
    ExtT (fun e => (cgi.request.Method ≠ ascii "GET" ∧ cgi.request.Method ≠ ascii "HEAD") ∧
        IsRecord typeStdin id e)
      (afterParams o cgi id).2 (afterStdin o cgi id).2 := by
  unfold afterStdin
  split
  · next h => exact (writeBody_ext _ _ _).monoT (fun e he => ⟨h, he⟩)
  · exact ExtT.reflT _ _

theorem awaitResponse_ext (o : Oracle) (cgi : CgiClient) (id : Nat) (res : ResponseContent) :
    ExtT (IsRecord typeEndRequest id) cgi (awaitResponse o cgi id res).2 := by
  unfold awaitResponse
  split
  · exact writeEndRequest_ext _ _ _ _
  · exact ExtT.reflT _ _
  · exact ExtT.reflT _ _

theorem deferred_trace (cgi : CgiClient) (id : Nat) :
    (deferred cgi id).trace =
      cgi.trace ++ [Event.release id,
        Event.write (recordBytes typeEndRequest id [0, 0, 0, 200, 0, 0, 0, 0]),
        Event.release id, Event.close] := by
  unfold deferred
  simp only [writeEndRequest_trace, List.append_assoc]
  rfl

/-- Before the deferred function runs, a session has written its BeginRequest
record and after it only session events. -/
theorem doRequestBody_trace (o : Oracle) (cgi : CgiClient) (id : Nat) :
    ∃ rest, (doRequestBody o cgi id).2.trace =
        cgi.trace ++ Event.write (recordBytes typeBeginRequest id
          [0, 1, if cgi.request.KeepConn then 1 else 0, 0, 0, 0, 0, 0]) :: rest ∧
      ∀ e ∈ rest, SessionEvent cgi.request.Method id e := by
  have hB := afterBegin_trace cgi id
  have hP : ExtT (SessionEvent cgi.request.Method id) (afterBegin cgi id).2 (afterParams o cgi id).2 :=
    (afterParams_ext o cgi id).monoT (fun e h => Or.inr (Or.inl h))
  have hS : ExtT (SessionEvent cgi.request.Method id) (afterParams o cgi id).2 (afterStdin o cgi id).2 :=
    (afterStdin_ext o cgi id).monoT (fun e h => Or.inr (Or.inr (Or.inl h)))
  have key : ∀ c : CgiClient, ExtT (SessionEvent cgi.request.Method id) (afterBegin cgi id).2 c →
      ∃ rest, c.trace = cgi.trace ++ Event.write (recordBytes typeBeginRequest id
          [0, 1, if cgi.request.KeepConn then 1 else 0, 0, 0, 0, 0, 0]) :: rest ∧
        ∀ e ∈ rest, SessionEvent cgi.request.Method id e := by
    intro c hc
    obtain ⟨⟨added, ha, hall⟩, _⟩ := hc
    exact ⟨added, by rw [ha, hB, List.append_assoc]; rfl, hall⟩
  rw [doRequestBody_eq]
  split
  · exact key _ (ExtT.reflT _ _)
  · split
    · exact key _ hP
    · split
      · exact key _ (hP.transT hS)
      · have hG : ExtT (SessionEvent cgi.request.Method id) (afterStdin o cgi id).2
            { (afterStdin o cgi id).2 with
              trace := (afterStdin o cgi id).2.trace ++ [Event.goReadResponse] } :=
          ExtT.single _ _ (Or.inr (Or.inr (Or.inr (Or.inr rfl))))
        exact key _ (((hP.transT hS).transT hG).transT
          ((awaitResponse_ext o _ id _).monoT
            (fun e h => Or.inr (Or.inr (Or.inr (Or.inl h))))))

/-- The whole trace of a session: the id taken from the pool, the BeginRequest
record, session events, then the four events of the deferred function. -/
theorem DoRequest_trace (o : Oracle) (cgi : CgiClient) :
    ∃ rest, (DoRequest o cgi).2.trace =
        cgi.trace ++ Event.alloc o.allocId ::
          Event.write (recordBytes typeBeginRequest o.allocId
            [0, 1, if cgi.request.KeepConn then 1 else 0, 0, 0, 0, 0, 0]) ::
          (rest ++ [Event.release o.allocId,
            Event.write (recordBytes typeEndRequest o.allocId [0, 0, 0, 200, 0, 0, 0, 0]),
            Event.release o.allocId, Event.close]) ∧
      ∀ e ∈ rest, SessionEvent cgi.request.Method o.allocId e := by
  obtain ⟨rest, hr, hall⟩ := doRequestBody_trace o
    { cgi with trace := cgi.trace ++ [Event.alloc o.allocId] } o.allocId
  refine ⟨rest, ?_, hall⟩
  unfold DoRequest
  simp only [deferred_trace, hr]
  simp

theorem SessionEvent.ne_release {m : Bytes} {id : Nat} {e : Event} (h : SessionEvent m id e)
    (k : Nat) : e ≠ Event.release k := by
  rintro rfl
  rcases h with ⟨c, hc⟩ | ⟨c, hc⟩ | ⟨_, c, hc⟩ | ⟨c, hc⟩ | hc <;> cases hc

theorem SessionEvent.ne_close {m : Bytes} {id : Nat} {e : Event} (h : SessionEvent m id e) :
    e ≠ Event.close := by
  rintro rfl
  rcases h with ⟨c, hc⟩ | ⟨c, hc⟩ | ⟨_, c, hc⟩ | ⟨c, hc⟩ | hc <;> cases hc

theorem recordBytes_type (t id : Nat) (c : Bytes) : (recordBytes t id c).get? 1 = some (t % 256) := by
  simp [recordBytes, header.encode, header.init]

theorem recordBytes_eight (t id : Nat) (c : Bytes) (h : c.length = 8) :
    recordBytes t id c =
      [1, t % 256, id % 65536 / 256 % 256, id % 65536 % 256, 0, 8, 0, 0] ++ c := by
  simp [recordBytes, header.encode, header.init, h, pad]

/-- C1 (as the code behaves): on every exit path of `DoRequest` the session makes
exactly two `pool.Release` calls for its request id and closes the transport
exactly once. -/
theorem DoRequest_releases_twice_closes_once (o : Oracle) (cgi : CgiClient) :
    (DoRequest o cgi).2.trace.count (Event.release o.allocId) =
        cgi.trace.count (Event.release o.allocId) + 2 ∧
      (DoRequest o cgi).2.trace.count Event.close = cgi.trace.count Event.close + 1 := by
  obtain ⟨rest, hr, hall⟩ := DoRequest_trace o cgi
  have h1 : rest.count (Event.release o.allocId) = 0 :=
    List.count_eq_zero.mpr (fun hmem => (hall _ hmem).ne_release _ rfl)
  have h2 : rest.count Event.close = 0 :=
    List.count_eq_zero.mpr (fun hmem => (hall _ hmem).ne_close rfl)
  rw [hr]
  constructor
  · simp [List.count_cons, h1]
  · simp [List.count_cons, h2]

/-- C10: the first record `DoRequest` writes is a BeginRequest record (type 1) for
the allocated request id whose content is `[0, 1, f, 0, 0, 0, 0, 0]` with `f = 1`
exactly when `KeepConn` is true: the first event after the allocation is the
write of the 8-byte header followed by these 8 bytes. -/
theorem DoRequest_first_record (o : Oracle) (cgi : CgiClient) :
    ∃ rest, (DoRequest o cgi).2.trace =
      cgi.trace ++ Event.alloc o.allocId ::
        Event.write [1, typeBeginRequest, o.allocId % 65536 / 256 % 256, o.allocId % 65536 % 256,
          0, 8, 0, 0,
          0, roleResponder, if cgi.request.KeepConn then 1 else 0, 0, 0, 0, 0, 0] :: rest := by
  obtain ⟨rest, hr, _⟩ := DoRequest_trace o cgi
  refine ⟨rest ++ [Event.release o.allocId,
    Event.write (recordBytes typeEndRequest o.allocId [0, 0, 0, 200, 0, 0, 0, 0]),
    Event.release o.allocId, Event.close], ?_⟩
  rw [hr, recordBytes_eight typeBeginRequest o.allocId
    [0, 1, if cgi.request.KeepConn then 1 else 0, 0, 0, 0, 0, 0] rfl]
  rfl

/-- C7: when the method is GET or HEAD, no event that `DoRequest` adds to the trace
is the write of a Stdin record (type byte 5), whatever the request holds in
`CONTENT_LENGTH`. -/
theorem DoRequest_get_head_no_stdin (o : Oracle) (cgi : CgiClient)
    (hm : cgi.request.Method = ascii "GET" ∨ cgi.request.Method = ascii "HEAD") :
    ∃ added, (DoRequest o cgi).2.trace = cgi.trace ++ added ∧
      ∀ b, Event.write b ∈ added → b.get? 1 ≠ some typeStdin := by
  obtain ⟨rest, hr, hall⟩ := DoRequest_trace o cgi
  refine ⟨_, hr, ?_⟩
  intro b hb
  have hrec : ∀ t c, t = typeBeginRequest ∨ t = typeParams ∨ t = typeEndRequest →
      (recordBytes t o.allocId c).get? 1 ≠ some typeStdin := by
    intro t c ht
    rw [recordBytes_type]
    rcases ht with rfl | rfl | rfl <;> decide
  simp only [List.mem_cons, List.mem_append, Event.write.injEq, List.mem_singleton,
    List.mem_nil_iff, or_false, false_or, reduceCtorEq] at hb
  rcases hb with rfl | hb | rfl
  · exact hrec _ _ (Or.inl rfl)
  · rcases hall _ hb with ⟨c, hc⟩ | ⟨c, hc⟩ | ⟨hne, _⟩ | ⟨c, hc⟩ | hc
    · cases hc; exact hrec _ _ (Or.inl rfl)
    · cases hc; exact hrec _ _ (Or.inr (Or.inl rfl))
    · rcases hm with h | h
      · exact absurd h hne.1
      · exact absurd h hne.2
    · cases hc; exact hrec _ _ (Or.inr (Or.inr rfl))
    · cases hc
  · exact hrec _ _ (Or.inr (Or.inr rfl))

/-- Witness of C7: a GET request that carries `CONTENT_LENGTH: 5`. -/
theorem DoRequest_get_head_no_stdin_witness :
    ∃ added,
      (DoRequest (sampleOracle false)
        (sampleClient (sampleRequest (ascii "GET") [(ascii "CONTENT_LENGTH", ascii "5")]
          [(ascii "hello", none)]) [])).2.trace =
        (sampleClient (sampleRequest (ascii "GET") [(ascii "CONTENT_LENGTH", ascii "5")]
          [(ascii "hello", none)]) []).trace ++ added ∧
      ∀ b, Event.write b ∈ added → b.get? 1 ≠ some typeStdin :=
  DoRequest_get_head_no_stdin (sampleOracle false)
    (sampleClient (sampleRequest (ascii "GET") [(ascii "CONTENT_LENGTH", ascii "5")]
      [(ascii "hello", none)]) []) (Or.inl rfl)

/-- C9: `writeEndRequest` hands the transport one record: the header of type
EndRequest (3) for the request id with content length 8 and no padding, then
the application status as a big-endian 32-bit value, the protocol status, and
three zero bytes. -/
theorem writeEndRequest_record (cgi : CgiClient) (reqId : Nat) (appStatus : Int)
    (protocolStatus : Nat) (hid : reqId < 65536) (hp : protocolStatus < 256) :
    (writeEndRequest cgi reqId appStatus protocolStatus).2.trace =
      cgi.trace ++ [Event.write [1, typeEndRequest, reqId / 256, reqId % 256, 0, 8, 0, 0,
        toUint32 appStatus / 16777216 % 256, toUint32 appStatus / 65536 % 256,
        toUint32 appStatus / 256 % 256, toUint32 appStatus % 256,
        protocolStatus, 0, 0, 0]] := by
  rw [writeEndRequest_trace]
  have h1 : reqId % 65536 = reqId := Nat.mod_eq_of_lt hid
  have h2 : protocolStatus % 256 = protocolStatus := Nat.mod_eq_of_lt hp
  have h3 : reqId / 256 % 256 = reqId / 256 := Nat.mod_eq_of_lt (by omega)
  simp [recordBytes, header.encode, header.init, putUint32, pad, typeEndRequest, h1, h2, h3]

/-- Witness of C9: application status 502, protocol status 1, request id 7. -/
theorem writeEndRequest_record_witness :
    (writeEndRequest (sampleClient (sampleRequest (ascii "GET") [] []) []) 7 502 1).2.trace =
      (sampleClient (sampleRequest (ascii "GET") [] []) []).trace ++
        [Event.write [1, typeEndRequest, 7 / 256, 7 % 256, 0, 8, 0, 0,
          toUint32 502 / 16777216 % 256, toUint32 502 / 65536 % 256,
          toUint32 502 / 256 % 256, toUint32 502 % 256, 1, 0, 0, 0]] :=
  writeEndRequest_record _ 7 502 1 (by decide) (by decide)

/-! ## The `select` -/

theorem atSelect_rres (o : Oracle) (cgi : CgiClient) : (atSelect o cgi).rres = cgi.rres := by
  unfold atSelect
  show (afterStdin o _ o.allocId).2.rres = cgi.rres
  rw [(afterStdin_ext o _ o.allocId).2, (afterParams_ext o _ o.allocId).2, afterBegin_rres]

theorem DoRequest_of_reaches (o : Oracle) (cgi : CgiClient) (h : ReachesSelect o cgi) :
    DoRequest o cgi =
      ((awaitResponse o (atSelect o cgi) o.allocId
          (readResponse cgi.rres { buf := [], signals := [] })).1,
        deferred (awaitResponse o (atSelect o cgi) o.allocId
          (readResponse cgi.rres { buf := [], signals := [] })).2 o.allocId) := by
  obtain ⟨h1, h2, h3⟩ := h
  have hr : (afterStdin o { cgi with trace := cgi.trace ++ [Event.alloc o.allocId] }
      o.allocId).2.rres = cgi.rres := atSelect_rres o cgi
  have e : doRequestBody o { cgi with trace := cgi.trace ++ [Event.alloc o.allocId] } o.allocId =
      awaitResponse o (atSelect o cgi) o.allocId
        (readResponse (afterStdin o { cgi with trace := cgi.trace ++ [Event.alloc o.allocId] }
          o.allocId).2.rres { buf := [], signals := [] }) := by
    rw [doRequestBody_eq]
    simp only [h1, h2, h3]
    rfl
  rw [hr] at e
  show ((doRequestBody o { cgi with trace := cgi.trace ++ [Event.alloc o.allocId] } o.allocId).1,
    deferred (doRequestBody o { cgi with trace := cgi.trace ++ [Event.alloc o.allocId] }
      o.allocId).2 o.allocId) = _
  rw [e]

theorem DoRequest_error_of_not_reaches (o : Oracle) (cgi : CgiClient)
    (h : ¬ ReachesSelect o cgi) : (DoRequest o cgi).1.2 ≠ none := by
  unfold DoRequest
  simp only [doRequestBody_eq]
  intro hn
  apply h
  unfold ReachesSelect
  split at hn
  · simp at hn
  · next h1 =>
    split at hn
    · simp at hn
    · next h2 =>
      split at hn
      · simp at hn
      · next h3 => exact ⟨h1, h2, h3⟩

theorem readResponse_pre (tail : List ReadOutcome) : ∀ (pre : List ReadOutcome)
    (res : ResponseContent),
    (∀ x ∈ pre, x.continues = true) →
    readResponse (pre ++ tail) res =
      readResponse tail { res with buf := res.buf ++ stdoutStderr pre } := by
  intro pre
  induction pre with
  | nil => intro res _; simp [stdoutStderr]
  | cons x rest ih =>
    intro res hpre
    have hx := hpre x (List.mem_cons_self _ _)
    have hrest : ∀ y ∈ rest, y.continues = true :=
      fun y hy => hpre y (List.mem_cons_of_mem _ hy)
    cases x with
    | fail e => simp [ReadOutcome.continues] at hx
    | ok r =>
    have hr : r.h.Type_ ≠ typeEndRequest := by simpa [ReadOutcome.continues] using hx
    rw [List.cons_append, readResponse]
    by_cases h6 : r.h.Type_ = typeStdout
    · rw [if_pos h6, ih _ hrest]
      simp [stdoutStderr, h6]
    · rw [if_neg h6]
      by_cases h7 : r.h.Type_ = typeStderr
      · rw [if_pos h7, ih _ hrest]
        simp [stdoutStderr, h7]
      · rw [if_neg h7, if_neg hr, ih _ hrest]
        simp [stdoutStderr, h6, h7]

theorem readResponse_endRequest (pre post : List ReadOutcome) (endRec : record)
    (hpre : ∀ x ∈ pre, x.continues = true)
    (hend : endRec.h.Type_ = typeEndRequest) :
    readResponse (pre ++ ReadOutcome.ok endRec :: post) { buf := [], signals := [] } =
      { buf := stdoutStderr pre ++ endRec.content, signals := [Signal.received] } := by
  rw [readResponse_pre _ _ _ hpre, readResponse]
  have h6 : endRec.h.Type_ ≠ typeStdout := by rw [hend]; decide
  have h7 : endRec.h.Type_ ≠ typeStderr := by rw [hend]; decide
  rw [if_neg h6, if_neg h7, if_pos hend]
  simp [ResponseContent.content]

theorem readResponse_eof (pre post : List ReadOutcome)
    (hpre : ∀ x ∈ pre, x.continues = true) :
    readResponse (pre ++ ReadOutcome.fail GoError.eof :: post) { buf := [], signals := [] } =
      { buf := stdoutStderr pre, signals := [Signal.received] } := by
  rw [readResponse_pre _ _ _ hpre, readResponse]
  simp

theorem awaitResponse_timer (o : Oracle) (cgi : CgiClient) (id : Nat) (res : ResponseContent)
    (h : o.timerFirst = true ∨ res.signals = []) :
    awaitResponse o cgi id res =
      ((none, some GoError.timeout502), (writeEndRequest cgi id 502 1).2) := by
  unfold awaitResponse
  rcases h with h | h
  · simp [h]
  · cases o.timerFirst <;> simp [h]

theorem awaitResponse_received (o : Oracle) (cgi : CgiClient) (id : Nat)
    (res : ResponseContent) (rest : List Signal) (hT : o.timerFirst = false)
    (h : res.signals = Signal.received :: rest) :
    awaitResponse o cgi id res = ((some res.content, none), cgi) := by
  unfold awaitResponse
  simp [hT, h]

theorem atSelect_trace (o : Oracle) (cgi : CgiClient) :
    ∃ pre, (atSelect o cgi).trace = pre ++ [Event.goReadResponse] :=
  ⟨_, rfl⟩

/-! ## C2: the record written on timeout -/

/-- C2 (counterexample): in a session whose timer wins the `select`, `DoRequest`
returns the timeout error, and the EndRequest records it writes carry the
protocol statuses 1 (CantMultiplexConnection) and 0: none carries Overloaded. -/
theorem timeout_status_is_not_overloaded :
    (DoRequest (sampleOracle true)
        (sampleClient (sampleRequest (ascii "GET") [] []) [])).1 =
      (none, some GoError.timeout502) ∧
    endRequestStatuses (DoRequest (sampleOracle true)
        (sampleClient (sampleRequest (ascii "GET") [] []) [])).2.trace =
      [statusCantMultiplex, statusRequestComplete] ∧
    statusOverloaded ∉ endRequestStatuses (DoRequest (sampleOracle true)
        (sampleClient (sampleRequest (ascii "GET") [] []) [])).2.trace := by
  decide

/-- C2 (amended): when the session has reached the `select` and the timer wins
(the scheduler picks it, or the collector never sends), `DoRequest` returns the
error "502 timeout" with a nil buffer, and the record it writes right after the
start of the collector is an EndRequest record whose body is the application
status 502 followed by protocol status 1 (CantMultiplexConnection) in byte 4;
the events of the deferred function follow. -/
theorem DoRequest_timeout_notice (o : Oracle) (cgi : CgiClient) (hR : ReachesSelect o cgi)
    (hT : o.timerFirst = true ∨
      (readResponse cgi.rres { buf := [], signals := [] }).signals = []) :
    (DoRequest o cgi).1 = (none, some GoError.timeout502) ∧
    ∃ pre, (DoRequest o cgi).2.trace =
      pre ++ [Event.goReadResponse,
        Event.write ([1, typeEndRequest, o.allocId % 65536 / 256 % 256,
          o.allocId % 65536 % 256, 0, 8, 0, 0] ++
          [0, 0, 1, 246, statusCantMultiplex, 0, 0, 0]),
        Event.release o.allocId,
        Event.write (recordBytes typeEndRequest o.allocId [0, 0, 0, 200, 0, 0, 0, 0]),
        Event.release o.allocId, Event.close] := by
  rw [DoRequest_of_reaches o cgi hR, awaitResponse_timer o _ _ _ hT]
  refine ⟨rfl, ?_⟩
  obtain ⟨pre, hpre⟩ := atSelect_trace o cgi
  refine ⟨pre, ?_⟩
  simp only [deferred_trace, writeEndRequest_trace, hpre, List.append_assoc]
  rw [recordBytes_eight typeEndRequest o.allocId
    (putUint32 (toUint32 502) ++ [1 % 256, 0, 0, 0]) (by simp [putUint32])]
  have h502 : putUint32 (toUint32 502) = [0, 0, 1, 246] := by decide
  rw [h502]
  rfl

/-- Witness of C2: a GET session whose responder never answers. -/
theorem DoRequest_timeout_notice_witness :
    ReachesSelect (sampleOracle false) (sampleClient (sampleRequest (ascii "GET") [] []) []) ∧
    (DoRequest (sampleOracle false)
        (sampleClient (sampleRequest (ascii "GET") [] []) [])).1 =
      (none, some GoError.timeout502) ∧
    ∃ pre, (DoRequest (sampleOracle false)
        (sampleClient (sampleRequest (ascii "GET") [] []) [])).2.trace =
      pre ++ [Event.goReadResponse,
        Event.write ([1, typeEndRequest, (sampleOracle false).allocId % 65536 / 256 % 256,
          (sampleOracle false).allocId % 65536 % 256, 0, 8, 0, 0] ++
          [0, 0, 1, 246, statusCantMultiplex, 0, 0, 0]),
        Event.release (sampleOracle false).allocId,
        Event.write (recordBytes typeEndRequest (sampleOracle false).allocId
          [0, 0, 0, 200, 0, 0, 0, 0]),
        Event.release (sampleOracle false).allocId, Event.close] :=
  ⟨by decide,
    DoRequest_timeout_notice (sampleOracle false)
      (sampleClient (sampleRequest (ascii "GET") [] []) []) (by decide) (Or.inr rfl)⟩

/-! ## C3: the content length that does not parse -/

theorem writeBody_atoi_error (cgi : CgiClient) (t id : Nat) (e : GoError)
    (h : (Atoi (cgi.request.Header.get (ascii "CONTENT_LENGTH"))).2 = some e) :
    (writeBody cgi t id).1 = some e := by
  rw [writeBody_eq]
  have hl : bodyLength cgi = 0 := by
    unfold bodyLength
    rw [h]
    simp
  rw [hl]
  simpa using h

/-- C3 (the code at the failing input): a POST request without `CONTENT_LENGTH`.
`writeBody` reads nothing, yet it returns the error of `strconv.Atoi`, so
`DoRequest` returns that error with a nil buffer and never starts the
collector, although the responder has an answer ready. -/
theorem DoRequest_fails_without_content_length :
    (writeBody (sampleClient (sampleRequest (ascii "POST") [] [(ascii "hello", none)]) [])
        typeStdin 7).1 = some (GoError.numError []) ∧
    (writeBody (sampleClient (sampleRequest (ascii "POST") [] [(ascii "hello", none)]) [])
        typeStdin 7).2.request.reads = [(ascii "hello", none)] ∧
    (DoRequest (sampleOracle false)
        (sampleClient (sampleRequest (ascii "POST") [] [(ascii "hello", none)])
          [sampleRecord typeStdout (ascii "A"), ReadOutcome.fail GoError.eof])).1 =
      (none, some (GoError.numError [])) ∧
    Event.goReadResponse ∉ (DoRequest (sampleOracle false)
        (sampleClient (sampleRequest (ascii "POST") [] [(ascii "hello", none)])
          [sampleRecord typeStdout (ascii "A"), ReadOutcome.fail GoError.eof])).2.trace := by
  decide

/-! ## C5, C6: what the collector hands back -/

/-- C5: when the records delivered by the transport are Stdout, Stderr and other
records that are not EndRequest, followed by an EndRequest record, the buffer
that `DoRequest` returns on success is the concatenation, in arrival order, of
the contents of the Stdout and Stderr records before that EndRequest record,
followed by the whole content of the EndRequest record; the collector sends
the completion signal once. -/
theorem DoRequest_success_buffer (o : Oracle) (cgi : CgiClient) (pre post : List ReadOutcome)
    (endRec : record)
    (hpre : ∀ x ∈ pre, x.continues = true)
    (hend : endRec.h.Type_ = typeEndRequest)
    (hrres : cgi.rres = pre ++ ReadOutcome.ok endRec :: post)
    (hok : (DoRequest o cgi).1.2 = none) :
    (DoRequest o cgi).1.1 = some (stdoutStderr pre ++ endRec.content) ∧
      readResponse cgi.rres { buf := [], signals := [] } =
        { buf := stdoutStderr pre ++ endRec.content, signals := [Signal.received] } := by
  have hres := readResponse_endRequest pre post endRec hpre hend
  rw [← hrres] at hres
  refine ⟨?_, hres⟩
  have hR : ReachesSelect o cgi := by
    by_contra hn
    exact DoRequest_error_of_not_reaches o cgi hn hok
  rw [DoRequest_of_reaches o cgi hR] at hok ⊢
  cases hT : o.timerFirst with
  | true =>
    rw [awaitResponse_timer o _ _ _ (Or.inl hT)] at hok
    simp at hok
  | false =>
    rw [awaitResponse_received o _ _ _ [] hT (by rw [hres])]
    simp [hres, ResponseContent.content]

/-- Witness of C5: Stdout "A", a record of type 9, Stderr "B", then EndRequest with
content "C" and four more bytes. -/
theorem DoRequest_success_buffer_witness :
    (DoRequest (sampleOracle false)
      (sampleClient (sampleRequest (ascii "GET") [] [])
        ([sampleRecord typeStdout (ascii "A"), sampleRecord typeGetValues (ascii "x"),
          sampleRecord typeStderr (ascii "B")] ++
          ReadOutcome.ok { h := header.init typeEndRequest 7 5, buf := [67, 0, 0, 0, 0] } ::
            [sampleRecord typeStdout (ascii "late")]))).1.2 = none ∧
    (DoRequest (sampleOracle false)
      (sampleClient (sampleRequest (ascii "GET") [] [])
        ([sampleRecord typeStdout (ascii "A"), sampleRecord typeGetValues (ascii "x"),
          sampleRecord typeStderr (ascii "B")] ++
          ReadOutcome.ok { h := header.init typeEndRequest 7 5, buf := [67, 0, 0, 0, 0] } ::
            [sampleRecord typeStdout (ascii "late")]))).1.1 = some [65, 66, 67, 0, 0, 0, 0] :=
  ⟨by decide,
    (DoRequest_success_buffer (sampleOracle false)
      (sampleClient (sampleRequest (ascii "GET") [] [])
        ([sampleRecord typeStdout (ascii "A"), sampleRecord typeGetValues (ascii "x"),
          sampleRecord typeStderr (ascii "B")] ++
          ReadOutcome.ok { h := header.init typeEndRequest 7 5, buf := [67, 0, 0, 0, 0] } ::
            [sampleRecord typeStdout (ascii "late")]))
      [sampleRecord typeStdout (ascii "A"), sampleRecord typeGetValues (ascii "x"),
        sampleRecord typeStderr (ascii "B")]
      [sampleRecord typeStdout (ascii "late")]
      { h := header.init typeEndRequest 7 5, buf := [67, 0, 0, 0, 0] }
      (by decide) (by decide) rfl (by decide)).1⟩

/-- C6: when the transport delivers records none of which is an EndRequest record
and then reports EOF, the collector sends the completion signal and no error
signal, and a session that has reached the `select` and whose timer does not
win returns a nil error together with the concatenation of the Stdout and
Stderr contents received before the EOF. -/
theorem DoRequest_eof_is_completion (o : Oracle) (cgi : CgiClient)
    (pre post : List ReadOutcome)
    (hpre : ∀ x ∈ pre, x.continues = true)
    (hrres : cgi.rres = pre ++ ReadOutcome.fail GoError.eof :: post)
    (hR : ReachesSelect o cgi) (hT : o.timerFirst = false) :
    (readResponse cgi.rres { buf := [], signals := [] }).signals = [Signal.received] ∧
      (DoRequest o cgi).1 = (some (stdoutStderr pre), none) := by
  have hres := readResponse_eof pre post hpre
  rw [← hrres] at hres
  refine ⟨by rw [hres], ?_⟩
  rw [DoRequest_of_reaches o cgi hR, awaitResponse_received o _ _ _ [] hT (by rw [hres])]
  simp [hres, ResponseContent.content]

/-- Witness of C6: Stdout "A", Stderr "B", then the peer closes the transport. -/
theorem DoRequest_eof_is_completion_witness :
    ReachesSelect (sampleOracle false)
      (sampleClient (sampleRequest (ascii "GET") [] [])
        ([sampleRecord typeStdout (ascii "A"), sampleRecord typeStderr (ascii "B")] ++
          ReadOutcome.fail GoError.eof :: [])) ∧
    (readResponse (sampleClient (sampleRequest (ascii "GET") [] [])
        ([sampleRecord typeStdout (ascii "A"), sampleRecord typeStderr (ascii "B")] ++
          ReadOutcome.fail GoError.eof :: [])).rres
      { buf := [], signals := [] }).signals = [Signal.received] ∧
    (DoRequest (sampleOracle false)
      (sampleClient (sampleRequest (ascii "GET") [] [])
        ([sampleRecord typeStdout (ascii "A"), sampleRecord typeStderr (ascii "B")] ++
          ReadOutcome.fail GoError.eof :: []))).1 =
      (some (stdoutStderr [sampleRecord typeStdout (ascii "A"),
        sampleRecord typeStderr (ascii "B")]), none) :=
  ⟨by decide,
    DoRequest_eof_is_completion (sampleOracle false)
      (sampleClient (sampleRequest (ascii "GET") [] [])
        ([sampleRecord typeStdout (ascii "A"), sampleRecord typeStderr (ascii "B")] ++
          ReadOutcome.fail GoError.eof :: []))
      [sampleRecord typeStdout (ascii "A"), sampleRecord typeStderr (ascii "B")] []
      (by decide) rfl (by decide) rfl⟩

/-! ## Streams on a transport that accepts every write -/

theorem rwcWrite_noFail (cgi : CgiClient) (p : Bytes) (h : NoFail cgi) :
    (rwcWrite cgi p).1 = none ∧ NoFail (rwcWrite cgi p).2 := by
  unfold rwcWrite
  split
  · next hw => exact ⟨rfl, fun r hr => h r hr⟩
  · next r rest hw =>
    refine ⟨h r (by rw [hw]; exact List.mem_cons_self _ _), ?_⟩
    intro x hx
    exact h x (by rw [hw]; exact List.mem_cons_of_mem _ hx)

theorem writeRecord_noFail (cgi : CgiClient) (t id : Nat) (c : Bytes) (h : NoFail cgi) :
    (writeRecord cgi t id c).1 = none ∧ NoFail (writeRecord cgi t id c).2 := by
  unfold writeRecord
  exact rwcWrite_noFail _ _ h

theorem Sends.comp {c c1 c2 : CgiClient} {w w1 w2 : bufWriter} {p q : Bytes}
    {ch ch2 : List Bytes} (h1 : Sends c w c1 w1 p ch) (h2 : Sends c1 w1 c2 w2 q ch2) :
    Sends c w c2 w2 (p ++ q) (ch ++ ch2) where
  trace := by
    rw [h2.trace, h1.trace, h1.recType, h1.reqId]
    simp [chunkWrites]
  good := by
    intro x hx
    rcases List.mem_append.mp hx with h | h
    · exact h1.good x h
    · exact h2.good x h
  bytes := by
    rw [List.flatten_append, List.append_assoc, h2.bytes, ← List.append_assoc, h1.bytes,
      List.append_assoc]
  bound := h2.bound
  small := by
    intro hs
    rw [List.length_append] at hs
    have e1 : ch = [] := h1.small (by omega)
    have hb := h1.bytes
    rw [e1] at hb
    simp only [List.flatten_nil, List.nil_append] at hb
    have e2 : ch2 = [] := h2.small (by rw [hb, List.length_append]; omega)
    rw [e1, e2]
    rfl
  err := h2.err
  noFail := h2.noFail
  request := by rw [h2.request, h1.request]
  recType := by rw [h2.recType, h1.recType]
  reqId := by rw [h2.reqId, h1.reqId]

theorem Sends.nothing (c : CgiClient) (w : bufWriter) (he : w.err = none)
    (hb : w.pending.length ≤ maxWrite) (hn : NoFail c) : Sends c w c w [] [] where
  trace := by simp [chunkWrites]
  good := by intro x hx; cases hx
  bytes := by simp
  bound := hb
  small := fun _ => rfl
  err := he
  noFail := hn
  request := rfl
  recType := rfl
  reqId := rfl

theorem drain_sends (fuel : Nat) : ∀ (cgi : CgiClient) (w : bufWriter), NoFail cgi →
    w.err = none → w.pending.length ≤ fuel →
    ∃ chunks, Sends cgi w (bufWriter.drain fuel cgi w).1 (bufWriter.drain fuel cgi w).2 []
      chunks := by
  induction fuel with
  | zero =>
    intro cgi w hn he hl
    refine ⟨[], ?_⟩
    unfold bufWriter.drain
    exact Sends.nothing cgi w he (by omega) hn
  | succ n ih =>
    intro cgi w hn he hl
    unfold bufWriter.drain
    by_cases hlt : maxWrite < w.pending.length
    · rw [if_pos hlt]
      have hw := writeRecord_noFail cgi w.recType w.reqId (w.pending.take maxWrite) hn
      have ht := writeRecord_trace cgi w.recType w.reqId (w.pending.take maxWrite)
      have hq := writeRecord_request cgi w.recType w.reqId (w.pending.take maxWrite)
      rcases hres : writeRecord cgi w.recType w.reqId (w.pending.take maxWrite) with ⟨e, cgi1⟩
      rw [hres] at hw ht hq
      simp only at hw ht hq
      obtain ⟨he1, hn1⟩ := hw
      subst he1
      simp only
      have hM : maxWrite = 65535 := rfl
      have hlen : (w.pending.drop maxWrite).length ≤ n := by
        rw [List.length_drop]; omega
      obtain ⟨chs, hs⟩ := ih cgi1 { w with pending := w.pending.drop maxWrite } hn1 he hlen
      refine ⟨w.pending.take maxWrite :: chs, ?_⟩
      constructor
      · rw [hs.trace, ht]
        simp [chunkWrites]
      · intro x hx
        rcases List.mem_cons.mp hx with h | h
        · subst h
          have hl2 : (w.pending.take maxWrite).length = maxWrite := by
            rw [List.length_take]; omega
          refine ⟨?_, by omega⟩
          intro h0
          rw [h0] at hl2
          simp [hM] at hl2
        · exact hs.good x h
      · have hb := hs.bytes
        simp only [List.append_nil] at hb
        simp only [List.flatten_cons, List.append_assoc, List.append_nil, hb]
        exact List.take_append_drop _ _
      · exact hs.bound
      · intro hsm
        simp only [List.length_nil, Nat.add_zero] at hsm
        omega
      · exact hs.err
      · exact hs.noFail
      · rw [hs.request, hq]
      · exact hs.recType
      · exact hs.reqId
    · rw [if_neg hlt]
      exact ⟨[], Sends.nothing cgi w he (by omega) hn⟩

theorem Write_sends (cgi : CgiClient) (w : bufWriter) (p : Bytes) (hn : NoFail cgi)
    (he : w.err = none) :
    (bufWriter.Write cgi w p).1 = none ∧
      ∃ chunks, Sends cgi w (bufWriter.Write cgi w p).2.1 (bufWriter.Write cgi w p).2.2 p
        chunks := by
  unfold bufWriter.Write
  split
  · next e h => rw [he] at h; cases h
  simp only
  obtain ⟨chs, hs⟩ := drain_sends (w.pending ++ p).length cgi { w with pending := w.pending ++ p }
    hn he (Nat.le_refl _)
  refine ⟨hs.err, chs, ?_⟩
  constructor
  · exact hs.trace
  · exact hs.good
  · have hb := hs.bytes
    simpa using hb
  · exact hs.bound
  · intro hsm
    exact hs.small (by simpa using hsm)
  · exact hs.err
  · exact hs.noFail
  · exact hs.request
  · exact hs.recType
  · exact hs.reqId

theorem readBody_sends : ∀ (reads : List (Bytes × Option GoError)) (cgi : CgiClient)
    (w : bufWriter), NoFail cgi → w.err = none → w.pending.length ≤ maxWrite →
    (∃ chunks, Sends cgi w (readBody cgi w reads).2.1 (readBody cgi w reads).2.2.1
      (sourceBytes reads) chunks) ∧
    ((∀ x ∈ reads, x.2 = none ∨ x.2 = some GoError.eof) → (readBody cgi w reads).1 = none) := by
  intro reads
  induction reads with
  | nil =>
    intro cgi w hn he hb
    exact ⟨⟨[], Sends.nothing cgi w he hb hn⟩, fun _ => rfl⟩
  | cons pe rest ih =>
    intro cgi w hn he hb
    obtain ⟨p, e⟩ := pe
    unfold readBody sourceBytes
    by_cases hbad : e ≠ none ∧ e ≠ some GoError.eof
    · rw [if_pos hbad, if_pos hbad]
      refine ⟨⟨[], Sends.nothing cgi w he hb hn⟩, ?_⟩
      intro hall
      rcases hall (p, e) (List.mem_cons_self _ _) with h | h
      · exact absurd h hbad.1
      · exact absurd h hbad.2
    · rw [if_neg hbad, if_neg hbad]
      by_cases h0 : p.length = 0
      · rw [if_pos h0, if_pos h0]
        exact ⟨⟨[], Sends.nothing cgi w he hb hn⟩, fun _ => rfl⟩
      · rw [if_neg h0, if_neg h0]
        obtain ⟨hw1, chs, hs⟩ := Write_sends cgi w p hn he
        rcases hres : bufWriter.Write cgi w p with ⟨e1, cgi1, w1⟩
        rw [hres] at hw1 hs
        simp only at hw1 hs
        subst hw1
        simp only
        obtain ⟨⟨chs2, hs2⟩, hok⟩ := ih cgi1 w1 hs.noFail hs.err hs.bound
        exact ⟨⟨chs ++ chs2, hs.comp hs2⟩,
          fun hall => hok (fun x hx => hall x (List.mem_cons_of_mem _ hx))⟩

theorem Close_sends (cgi : CgiClient) (w : bufWriter) (hn : NoFail cgi) (he : w.err = none) :
    (bufWriter.Close cgi w).2.trace =
      cgi.trace ++ chunkWrites w.recType w.reqId (if w.pending = [] then [] else [w.pending]) ++
        [Event.write (recordBytes w.recType w.reqId [])] := by
  unfold bufWriter.Close
  split
  · next e h => rw [he] at h; cases h
  by_cases h0 : w.pending.length = 0
  · rw [if_pos h0, writeRecord_trace]
    have : w.pending = [] := List.length_eq_zero.mp h0
    simp [this, chunkWrites]
  · rw [if_neg h0]
    have h1 := writeRecord_noFail cgi w.recType w.reqId w.pending hn
    have ht := writeRecord_trace cgi w.recType w.reqId w.pending
    rcases hres : writeRecord cgi w.recType w.reqId w.pending with ⟨e, cgi1⟩
    rw [hres] at h1 ht
    simp only at h1 ht
    obtain ⟨he1, _⟩ := h1
    subst he1
    simp only
    have hne : w.pending ≠ [] := fun h => h0 (by rw [h]; rfl)
    rw [writeRecord_trace, ht, if_neg hne]
    simp [chunkWrites]

/-- On a transport that accepts every write, `writeBody` with a positive content
length sends everything the body source yields, cut into records, and then the
empty record that ends the stream. -/
theorem writeBody_sends (cgi : CgiClient) (t id : Nat) (hl : 0 < bodyLength cgi)
    (hn : NoFail cgi) :
    ∃ chunks, GoodChunks chunks ∧ chunks.flatten = sourceBytes cgi.request.reads ∧
      ((sourceBytes cgi.request.reads).length ≤ maxWrite →
        sourceBytes cgi.request.reads ≠ [] → chunks = [sourceBytes cgi.request.reads]) ∧
      (writeBody cgi t id).2.trace =
        cgi.trace ++ chunkWrites t id chunks ++ [Event.write (recordBytes t id [])] ∧
      ((∀ x ∈ cgi.request.reads, x.2 = none ∨ x.2 = some GoError.eof) →
        (writeBody cgi t id).1 = none) := by
  rw [writeBody_eq, if_pos hl]
  obtain ⟨⟨chs, hs⟩, hok⟩ := readBody_sends cgi.request.reads cgi (newWriter t id) hn rfl
    (by simp [newWriter])
  have hc := Close_sends
    { (readBody cgi (newWriter t id) cgi.request.reads).2.1 with
      request := { (readBody cgi (newWriter t id) cgi.request.reads).2.1.request with
        reads := (readBody cgi (newWriter t id) cgi.request.reads).2.2.2 } }
    (readBody cgi (newWriter t id) cgi.request.reads).2.2.1 hs.noFail hs.err
  have htr : (bufWriter.Close
      { (readBody cgi (newWriter t id) cgi.request.reads).2.1 with
        request := { (readBody cgi (newWriter t id) cgi.request.reads).2.1.request with
          reads := (readBody cgi (newWriter t id) cgi.request.reads).2.2.2 } }
      (readBody cgi (newWriter t id) cgi.request.reads).2.2.1).2.trace =
      (cgi.trace ++ chunkWrites t id chs) ++
        chunkWrites t id
          (if (readBody cgi (newWriter t id) cgi.request.reads).2.2.1.pending = [] then []
            else [(readBody cgi (newWriter t id) cgi.request.reads).2.2.1.pending]) ++
        [Event.write (recordBytes t id [])] := by
    rw [hc, hs.recType, hs.reqId]
    show (readBody cgi (newWriter t id) cgi.request.reads).2.1.trace ++ _ ++ _ = _
    rw [hs.trace]
    rfl
  have hb : chs.flatten ++ (readBody cgi (newWriter t id) cgi.request.reads).2.2.1.pending =
      sourceBytes cgi.request.reads := hs.bytes
  have hbound := hs.bound
  have hsmall : (sourceBytes cgi.request.reads).length ≤ maxWrite → chs = [] :=
    fun h => hs.small (by simpa [newWriter] using h)
  have hgood := hs.good
  show ∃ chunks, GoodChunks chunks ∧ chunks.flatten = sourceBytes cgi.request.reads ∧
      ((sourceBytes cgi.request.reads).length ≤ maxWrite →
        sourceBytes cgi.request.reads ≠ [] → chunks = [sourceBytes cgi.request.reads]) ∧
      (bufWriter.Close
        { (readBody cgi (newWriter t id) cgi.request.reads).2.1 with
          request := { (readBody cgi (newWriter t id) cgi.request.reads).2.1.request with
            reads := (readBody cgi (newWriter t id) cgi.request.reads).2.2.2 } }
        (readBody cgi (newWriter t id) cgi.request.reads).2.2.1).2.trace =
        cgi.trace ++ chunkWrites t id chunks ++ [Event.write (recordBytes t id [])] ∧
      ((∀ x ∈ cgi.request.reads, x.2 = none ∨ x.2 = some GoError.eof) →
        (readBody cgi (newWriter t id) cgi.request.reads).1 = none)
  rw [htr]
  generalize (readBody cgi (newWriter t id) cgi.request.reads).2.2.1.pending = pend
    at hb hbound
  refine ⟨chs ++ (if pend = [] then [] else [pend]), ?_, ?_, ?_, ?_, hok⟩
  · intro x hx
    rcases List.mem_append.mp hx with h | h
    · exact hgood x h
    · by_cases hp : pend = []
      · rw [if_pos hp] at h; cases h
      · rw [if_neg hp] at h
        have hx : x = pend := by simpa using h
        rw [hx]
        exact ⟨hp, hbound⟩
  · rw [← hb, List.flatten_append]
    by_cases hp : pend = []
    · rw [if_pos hp, hp]; rfl
    · rw [if_neg hp]; simp
  · intro hsm hne
    have hch : chs = [] := hsmall hsm
    rw [hch] at hb
    simp only [List.flatten_nil, List.nil_append] at hb
    rw [hch, hb, if_neg hne]
    rfl
  · simp [chunkWrites]

/-! ## C4, C8: the body written to the Stdin stream -/

/-- C4 (counterexample): with `CONTENT_LENGTH: 1` and a body source that yields the
two bytes "ab", `writeBody` writes a Stdin record with both bytes: more than
the content length. -/
theorem writeBody_exceeds_content_length :
    bodyLength (sampleClient (sampleRequest (ascii "POST")
        [(ascii "CONTENT_LENGTH", ascii "1")] [(ascii "ab", none)]) []) = 1 ∧
    (writeBody (sampleClient (sampleRequest (ascii "POST")
        [(ascii "CONTENT_LENGTH", ascii "1")] [(ascii "ab", none)]) []) typeStdin 7).2.trace =
      [Event.write (recordBytes typeStdin 7 [97, 98]),
        Event.write (recordBytes typeStdin 7 [])] ∧
    ¬ ([97, 98] : Bytes).length ≤ 1 := by
  decide

/-- C4 (amended): for a content length that parses to a positive integer and every
body source, on a transport that accepts every write, `writeBody` writes into
the Stdin stream all the bytes that the source yields before its first empty
read or read error, in order, as non-empty records of at most 65535 bytes
followed by the empty record; the content length does not bound them. -/
theorem writeBody_writes_whole_source (cgi : CgiClient) (reqId : Nat)
    (hl : 0 < bodyLength cgi) (hn : NoFail cgi) :
    ∃ chunks, GoodChunks chunks ∧ chunks.flatten = sourceBytes cgi.request.reads ∧
      (writeBody cgi typeStdin reqId).2.trace =
        cgi.trace ++ chunkWrites typeStdin reqId chunks ++
          [Event.write (recordBytes typeStdin reqId [])] := by
  obtain ⟨chunks, hg, hf, _, ht, _⟩ := writeBody_sends cgi typeStdin reqId hl hn
  exact ⟨chunks, hg, hf, ht⟩

/-- Witness of C4: content length 1, a source that yields "ab". -/
theorem writeBody_writes_whole_source_witness :
    0 < bodyLength (sampleClient (sampleRequest (ascii "POST")
        [(ascii "CONTENT_LENGTH", ascii "1")] [(ascii "ab", none)]) []) ∧
    ∃ chunks, GoodChunks chunks ∧
      chunks.flatten = sourceBytes (sampleClient (sampleRequest (ascii "POST")
        [(ascii "CONTENT_LENGTH", ascii "1")] [(ascii "ab", none)]) []).request.reads ∧
      (writeBody (sampleClient (sampleRequest (ascii "POST")
        [(ascii "CONTENT_LENGTH", ascii "1")] [(ascii "ab", none)]) []) typeStdin 7).2.trace =
        (sampleClient (sampleRequest (ascii "POST")
          [(ascii "CONTENT_LENGTH", ascii "1")] [(ascii "ab", none)]) []).trace ++
          chunkWrites typeStdin 7 chunks ++ [Event.write (recordBytes typeStdin 7 [])] :=
  ⟨by decide,
    writeBody_writes_whole_source
      (sampleClient (sampleRequest (ascii "POST")
        [(ascii "CONTENT_LENGTH", ascii "1")] [(ascii "ab", none)]) []) 7 (by decide)
      (fun r hr => absurd hr (List.not_mem_nil r))⟩

theorem sourceBytes_clean : ∀ (reads : List (Bytes × Option GoError)),
    (∀ x ∈ reads, x.1 ≠ [] ∧ x.2 = none) → sourceBytes reads = (reads.map Prod.fst).flatten := by
  intro reads
  induction reads with
  | nil => intro _; rfl
  | cons pe rest ih =>
    intro h
    obtain ⟨p, e⟩ := pe
    obtain ⟨hp, he⟩ := h (p, e) (List.mem_cons_self _ _)
    simp only at hp he
    subst he
    have h0 : ¬ p.length = 0 := fun h => hp (List.length_eq_zero.mp h)
    rw [sourceBytes, if_neg (by simp), if_neg h0,
      ih (fun x hx => h x (List.mem_cons_of_mem _ hx))]
    simp

/-- C8: for a positive content length `n` and a body source that yields exactly
`n` bytes in non-empty reads and then end-of-stream, on a transport that
accepts every write, `writeBody` returns no error and writes into the Stdin
stream exactly the body, in order, as non-empty records, followed by one empty
record; for `n <= 65535` these are exactly one Stdin record whose content is
the body and one zero-length Stdin record. -/
theorem writeBody_post_body (cgi : CgiClient) (reqId n : Nat) (body : Bytes)
    (hn : NoFail cgi)
    (hcl : Atoi (cgi.request.Header.get (ascii "CONTENT_LENGTH")) = ((n : Int), none))
    (hpos : 0 < n)
    (hclean : ∀ x ∈ cgi.request.reads, x.1 ≠ [] ∧ x.2 = none)
    (hbody : (cgi.request.reads.map Prod.fst).flatten = body) (hlen : body.length = n) :
    (writeBody cgi typeStdin reqId).1 = none ∧
    (∃ chunks, GoodChunks chunks ∧ chunks.flatten = body ∧
      (writeBody cgi typeStdin reqId).2.trace =
        cgi.trace ++ chunkWrites typeStdin reqId chunks ++
          [Event.write (recordBytes typeStdin reqId [])]) ∧
    (n ≤ 65535 →
      (writeBody cgi typeStdin reqId).2.trace =
        cgi.trace ++ [Event.write (recordBytes typeStdin reqId body),
          Event.write (recordBytes typeStdin reqId [])]) := by
  have hl : 0 < bodyLength cgi := by
    unfold bodyLength
    rw [hcl]
    simp only [ne_eq, not_true_eq_false, if_false]
    exact_mod_cast hpos
  have hsrc : sourceBytes cgi.request.reads = body := by
    rw [sourceBytes_clean _ hclean, hbody]
  obtain ⟨chunks, hg, hf, hsmall, ht, hok⟩ := writeBody_sends cgi typeStdin reqId hl hn
  rw [hsrc] at hf hsmall
  refine ⟨hok (fun x hx => Or.inl (hclean x hx).2), ⟨chunks, hg, hf, ht⟩, ?_⟩
  intro hle
  have hne : body ≠ [] := by
    intro h0
    rw [h0] at hlen
    simp at hlen
    omega
  have hch : chunks = [body] := hsmall (by rw [hlen]; exact hle) hne
  rw [ht, hch]
  simp [chunkWrites]

/-- Witness of C8: a POST request with `CONTENT_LENGTH: 5` and body "hello". -/
theorem writeBody_post_body_witness :
    (writeBody (sampleClient (sampleRequest (ascii "POST")
        [(ascii "CONTENT_LENGTH", ascii "5")] [(ascii "hello", none)]) []) typeStdin 7).1
      = none ∧
    (writeBody (sampleClient (sampleRequest (ascii "POST")
        [(ascii "CONTENT_LENGTH", ascii "5")] [(ascii "hello", none)]) []) typeStdin 7).2.trace =
      (sampleClient (sampleRequest (ascii "POST")
        [(ascii "CONTENT_LENGTH", ascii "5")] [(ascii "hello", none)]) []).trace ++
        [Event.write (recordBytes typeStdin 7 (ascii "hello")),
          Event.write (recordBytes typeStdin 7 [])] :=
  ⟨(writeBody_post_body
      (sampleClient (sampleRequest (ascii "POST")
        [(ascii "CONTENT_LENGTH", ascii "5")] [(ascii "hello", none)]) []) 7 5 (ascii "hello")
      (fun r hr => absurd hr (List.not_mem_nil r)) (by decide) (by decide) (by decide)
      (by decide) (by decide)).1,
    (writeBody_post_body
      (sampleClient (sampleRequest (ascii "POST")
        [(ascii "CONTENT_LENGTH", ascii "5")] [(ascii "hello", none)]) []) 7 5 (ascii "hello")
      (fun r hr => absurd hr (List.not_mem_nil r)) (by decide) (by decide) (by decide)
      (by decide) (by decide)).2.2 (by decide)⟩

/-! ## C11: the bytes of one record -/

/-- C11: for a content of length `n <= 65535`, `writeRecord` makes exactly one
write to the transport: the 8-byte header (version 1, type, request id, content
length `n`, padding length `p`, reserved 0), the `n` content bytes, then `p`
padding bytes with `p = (8 - n mod 8) mod 8`; the number of bytes written is
`8 + n + p`, a multiple of 8. -/
theorem writeRecord_bytes (cgi : CgiClient) (recType reqId : Nat) (content : Bytes)
    (hn : content.length ≤ 65535) :
    (writeRecord cgi recType reqId content).2.trace =
      cgi.trace ++ [Event.write
        ([1, recType % 256, reqId % 65536 / 256 % 256, reqId % 65536 % 256,
          content.length / 256, content.length % 256, (8 - content.length % 8) % 8, 0] ++
          content ++ List.replicate ((8 - content.length % 8) % 8) 0)] ∧
    ([1, recType % 256, reqId % 65536 / 256 % 256, reqId % 65536 % 256,
        content.length / 256, content.length % 256, (8 - content.length % 8) % 8, 0] ++
        content ++ List.replicate ((8 - content.length % 8) % 8) 0).length =
      8 + content.length + (8 - content.length % 8) % 8 ∧
    (8 + content.length + (8 - content.length % 8) % 8) % 8 = 0 := by
  have h1 : content.length % 65536 = content.length := Nat.mod_eq_of_lt (by omega)
  have h2 : content.length / 256 % 256 = content.length / 256 := Nat.mod_eq_of_lt (by omega)
  have h3 : (8 - content.length % 8) % 8 % 256 = (8 - content.length % 8) % 8 :=
    Nat.mod_eq_of_lt (by omega)
  have h4 : pad.take ((8 - content.length % 8) % 8) =
      List.replicate ((8 - content.length % 8) % 8) 0 := by
    unfold pad
    rw [List.take_replicate]
    congr 1
    omega
  refine ⟨?_, ?_, by omega⟩
  · rw [writeRecord_trace]
    simp only [recordBytes, header.encode, header.init, h1, h2, h3, h4, Nat.mod_mod]
  · simp
    omega

/-- Witness of C11: a Stdout-sized content of 5 bytes gets 3 bytes of padding. -/
theorem writeRecord_bytes_witness :
    (writeRecord (sampleClient (sampleRequest (ascii "GET") [] []) []) typeStdin 7
        (ascii "hello")).2.trace =
      [Event.write [1, 5, 0, 7, 0, 5, 3, 0, 104, 101, 108, 108, 111, 0, 0, 0]] :=
  (writeRecord_bytes (sampleClient (sampleRequest (ascii "GET") [] []) []) typeStdin 7
    (ascii "hello") (by decide)).1

/-! ## C15: the collector sends once -/

/-- C15: for every sequence of read results made of records that are not
EndRequest records and ended by an EndRequest record, `io.EOF` or another read
error, the collector makes exactly one send: on the completion channel for
EndRequest and `io.EOF`, on the error channel, with that error, for another
read error. -/
theorem readResponse_sends_once (pre post : List ReadOutcome) (term : ReadOutcome)
    (hpre : ∀ x ∈ pre, x.continues = true) (hterm : term.continues = false) :
    (readResponse (pre ++ term :: post) { buf := [], signals := [] }).signals =
      [term.signal] := by
  rw [readResponse_pre _ _ _ hpre]
  cases term with
  | fail e =>
    rw [readResponse]
    by_cases he : e ≠ GoError.eof
    · rw [if_pos he]; simp [ReadOutcome.signal, he]
    · rw [if_neg he]; simp [ReadOutcome.signal, he]
  | ok r =>
    have hr : r.h.Type_ = typeEndRequest := by
      simpa [ReadOutcome.continues] using hterm
    have h6 : r.h.Type_ ≠ typeStdout := by rw [hr]; decide
    have h7 : r.h.Type_ ≠ typeStderr := by rw [hr]; decide
    rw [readResponse, if_neg h6, if_neg h7, if_pos hr]
    simp [ReadOutcome.signal]

/-- Witness of C15: a Stdout record, then a read error that is not `io.EOF`. -/
theorem readResponse_sends_once_witness :
    (readResponse ([sampleRecord typeStdout (ascii "A")] ++
        ReadOutcome.fail (GoError.other 3) :: [sampleRecord typeStdout (ascii "B")])
      { buf := [], signals := [] }).signals = [Signal.err (GoError.other 3)] :=
  readResponse_sends_once [sampleRecord typeStdout (ascii "A")]
    [sampleRecord typeStdout (ascii "B")] (ReadOutcome.fail (GoError.other 3))
    (by decide) (by decide)

/-! ## C16: write failures -/

theorem afterBegin_fails (cgi : CgiClient) (id : Nat) (e : GoError)
    (rest : List (Option GoError)) (h : cgi.wres = some e :: rest) :
    (afterBegin cgi id).1 = some e := by
  unfold afterBegin writeBeginRequest writeRecord rwcWrite
  simp [h]

/-- When the transport refuses the write of the BeginRequest record with error
`e`, `DoRequest` returns a nil buffer and `e`; after that write only the
deferred function runs: no Params record, no Stdin record, no collector. -/
theorem DoRequest_begin_write_failure (o : Oracle) (cgi : CgiClient) (e : GoError)
    (rest : List (Option GoError)) (h : cgi.wres = some e :: rest) :
    (DoRequest o cgi).1 = (none, some e) ∧
    (DoRequest o cgi).2.trace =
      cgi.trace ++ [Event.alloc o.allocId,
        Event.write (recordBytes typeBeginRequest o.allocId
          [0, 1, if cgi.request.KeepConn then 1 else 0, 0, 0, 0, 0, 0]),
        Event.release o.allocId,
        Event.write (recordBytes typeEndRequest o.allocId [0, 0, 0, 200, 0, 0, 0, 0]),
        Event.release o.allocId, Event.close] := by
  have hb := afterBegin_fails { cgi with trace := cgi.trace ++ [Event.alloc o.allocId] }
    o.allocId e rest h
  have hd : doRequestBody o { cgi with trace := cgi.trace ++ [Event.alloc o.allocId] }
      o.allocId = ((none, some e),
        (afterBegin { cgi with trace := cgi.trace ++ [Event.alloc o.allocId] } o.allocId).2) := by
    rw [doRequestBody_eq]
    simp only [hb]
  show ((doRequestBody o { cgi with trace := cgi.trace ++ [Event.alloc o.allocId] }
      o.allocId).1,
    deferred (doRequestBody o { cgi with trace := cgi.trace ++ [Event.alloc o.allocId] }
      o.allocId).2 o.allocId).1 = _ ∧
    (_, deferred (doRequestBody o { cgi with trace := cgi.trace ++ [Event.alloc o.allocId] }
      o.allocId).2 o.allocId).2.trace = _
  rw [hd]
  refine ⟨rfl, ?_⟩
  simp only [deferred_trace, afterBegin_trace, List.append_assoc]
  rfl

/-- C16 (the code at the failing inputs): the transport accepts the BeginRequest
record and refuses a Params record, first the empty record that ends the Params
stream, then the record that carries the pairs.  In both sessions `writeHeader`
returns no error, and `DoRequest` goes on: it writes the Stdin records, starts
the collector and returns the response with a nil error. -/
theorem DoRequest_goes_on_after_params_failure :
    (DoRequest (sampleOracle false)
      (sampleClientWrites [none, none, some (GoError.other 1)]
        (sampleRequest (ascii "POST") [(ascii "CONTENT_LENGTH", ascii "5")]
          [(ascii "hello", none)])
        [sampleRecord typeStdout (ascii "A"), ReadOutcome.fail GoError.eof])).1 =
      (some [65], none) ∧
    (DoRequest (sampleOracle false)
      (sampleClientWrites [none, none, some (GoError.other 1)]
        (sampleRequest (ascii "POST") [(ascii "CONTENT_LENGTH", ascii "5")]
          [(ascii "hello", none)])
        [sampleRecord typeStdout (ascii "A"), ReadOutcome.fail GoError.eof])).2.trace =
      [Event.alloc 7,
        Event.write (recordBytes typeBeginRequest 7 [0, 1, 1, 0, 0, 0, 0, 0]),
        Event.write (recordBytes typeParams 7 [1, 1, 65, 98]),
        Event.write (recordBytes typeParams 7 []),
        Event.write (recordBytes typeStdin 7 (ascii "hello")),
        Event.write (recordBytes typeStdin 7 []),
        Event.goReadResponse,
        Event.release 7,
        Event.write (recordBytes typeEndRequest 7 [0, 0, 0, 200, 0, 0, 0, 0]),
        Event.release 7, Event.close] ∧
    (DoRequest (sampleOracle false)
      (sampleClientWrites [none, some (GoError.other 1)]
        (sampleRequest (ascii "POST") [(ascii "CONTENT_LENGTH", ascii "5")]
          [(ascii "hello", none)])
        [sampleRecord typeStdout (ascii "A"), ReadOutcome.fail GoError.eof])).1 =
      (some [65], none) ∧
    Event.goReadResponse ∈ (DoRequest (sampleOracle false)
      (sampleClientWrites [none, some (GoError.other 1)]
        (sampleRequest (ascii "POST") [(ascii "CONTENT_LENGTH", ascii "5")]
          [(ascii "hello", none)])
        [sampleRecord typeStdout (ascii "A"), ReadOutcome.fail GoError.eof])).2.trace := by
  decide

/-! ## C17: a pool without a free id -/

/-- When the pool has a free id, `Alloc` gives the lowest one and the call of
`DoRequest` is the session with that id. -/
theorem DoRequestFromPool_free (p : IdPool) (o : Oracle) (cgi : CgiClient) (id : Nat)
    (rest : List Nat) (hfree : p.freeIds = id :: rest) :
    DoRequestFromPool p o cgi =
      (Outcome.returned (DoRequest { o with allocId := id } cgi).1.1
        (DoRequest { o with allocId := id } cgi).1.2,
        (DoRequest { o with allocId := id } cgi).2) := by
  unfold DoRequestFromPool IdPool.Alloc
  rw [hfree]

/-- C17: if the request-id pool has no free id when `DoRequest` starts, the call
fails with `PoolExhausted` and leaves the client as it was: no record is
written to the transport (and nothing is released or closed). -/
theorem DoRequestFromPool_exhausted (p : IdPool) (o : Oracle) (cgi : CgiClient)
    (hfree : p.freeIds = []) :
    (DoRequestFromPool p o cgi).1 = Outcome.failed PoolError.PoolExhausted ∧
    (DoRequestFromPool p o cgi).2.trace = cgi.trace ∧
    ∀ b, Event.write b ∈ (DoRequestFromPool p o cgi).2.trace → Event.write b ∈ cgi.trace := by
  have h : DoRequestFromPool p o cgi = (Outcome.failed PoolError.PoolExhausted, cgi) := by
    unfold DoRequestFromPool IdPool.Alloc
    rw [hfree]
  rw [h]
  exact ⟨rfl, rfl, fun _ hb => hb⟩

/-- Witness of C17: the pool of size 65535 with every id of `[1, 65535]` held. -/
theorem DoRequestFromPool_exhausted_witness :
    (DoRequestFromPool (IdPool.mk 65535 (List.range' 1 65535)) (sampleOracle false)
      (sampleClient (sampleRequest (ascii "GET") [] []) [])).1 =
      Outcome.failed PoolError.PoolExhausted ∧
    (DoRequestFromPool (IdPool.mk 65535 (List.range' 1 65535)) (sampleOracle false)
      (sampleClient (sampleRequest (ascii "GET") [] []) [])).2.trace =
      (sampleClient (sampleRequest (ascii "GET") [] []) []).trace ∧
    ∀ b, Event.write b ∈ (DoRequestFromPool (IdPool.mk 65535 (List.range' 1 65535))
        (sampleOracle false) (sampleClient (sampleRequest (ascii "GET") [] []) [])).2.trace →
      Event.write b ∈ (sampleClient (sampleRequest (ascii "GET") [] []) []).trace :=
  DoRequestFromPool_exhausted (IdPool.mk 65535 (List.range' 1 65535)) (sampleOracle false)
    (sampleClient (sampleRequest (ascii "GET") [] []) [])
    (by
      simp [IdPool.freeIds]
      exact fun a h1 h2 => ⟨Nat.ne_of_gt h1, h2⟩)

/-! ## Maps -/

theorem GoMap.holds_set_self (m : GoMap) (k v : Bytes) : (m.set k v).Holds k v := by
  induction m with
  | nil => simp [GoMap.set, GoMap.Holds, GoMap.get]
  | cons kv rest ih =>
    obtain ⟨k0, v0⟩ := kv
    unfold GoMap.set
    by_cases h : k0 = k
    · rw [if_pos h]
      subst h
      simp [GoMap.Holds, GoMap.get]
    · rw [if_neg h]
      refine ⟨List.mem_cons_of_mem _ ih.1, ?_⟩
      rw [GoMap.get, if_neg h]
      exact ih.2

theorem GoMap.holds_set_ne (m : GoMap) (k v k1 v1 : Bytes) (hne : k1 ≠ k)
    (h : m.Holds k1 v1) : (m.set k v).Holds k1 v1 := by
  induction m with
  | nil => exact absurd h.1 (List.not_mem_nil _)
  | cons kv rest ih =>
    obtain ⟨k0, v0⟩ := kv
    obtain ⟨hm, hg⟩ := h
    unfold GoMap.set
    by_cases h0 : k0 = k
    · rw [if_pos h0]
      have h01 : k0 ≠ k1 := fun e => hne (e ▸ h0)
      rw [GoMap.get, if_neg h01] at hg
      refine ⟨?_, ?_⟩
      · rcases List.mem_cons.mp hm with e | e
        · exact absurd (congrArg Prod.fst e).symm h01
        · exact List.mem_cons_of_mem _ e
      · rw [GoMap.get, if_neg h01]
        exact hg
    · rw [if_neg h0]
      by_cases h01 : k0 = k1
      · rw [GoMap.get, if_pos h01] at hg
        subst h01
        subst hg
        exact ⟨List.mem_cons_self _ _, by rw [GoMap.get, if_pos rfl]⟩
      · rw [GoMap.get, if_neg h01] at hg
        have hm1 : (k1, v1) ∈ rest := by
          rcases List.mem_cons.mp hm with e | e
          · exact absurd (congrArg Prod.fst e).symm h01
          · exact e
        have := ih ⟨hm1, hg⟩
        exact ⟨List.mem_cons_of_mem _ this.1, by rw [GoMap.get, if_neg h01]; exact this.2⟩

theorem GoMap.mem_set (m : GoMap) (k v : Bytes) (kv : Bytes × Bytes)
    (h : kv ∈ m.set k v) : kv ∈ m ∨ kv = (k, v) := by
  induction m with
  | nil => right; simpa [GoMap.set] using h
  | cons kv0 rest ih =>
    obtain ⟨k0, v0⟩ := kv0
    unfold GoMap.set at h
    by_cases h0 : k0 = k
    · rw [if_pos h0] at h
      rcases List.mem_cons.mp h with e | e
      · right; rw [e, h0]
      · left; exact List.mem_cons_of_mem _ e
    · rw [if_neg h0] at h
      rcases List.mem_cons.mp h with e | e
      · left; rw [e]; exact List.mem_cons_self _ _
      · rcases ih e with e1 | e1
        · left; exact List.mem_cons_of_mem _ e1
        · right; exact e1

theorem addHttpHeaders_eq_setAll (up : Bytes → Bytes) : ∀ (V pairs : GoMap),
    addHttpHeaders up V pairs = setAll (httpName up) V pairs := by
  intro V
  induction V with
  | nil => intro pairs; rfl
  | cons kv rest ih =>
    intro pairs
    obtain ⟨k, v⟩ := kv
    rw [addHttpHeaders, setAll, ih]
    rfl

/-- After the assignments, the map holds `K` with `v` when every pair that is
assigned to `K` carries `v`, and `K` is assigned or was held before. -/
theorem setAll_holds (f : Bytes → Bytes) (K v : Bytes) : ∀ (L m : GoMap),
    (∀ kv ∈ L, f kv.1 = K → kv.2 = v) →
    ((∃ kv ∈ L, f kv.1 = K) ∨ m.Holds K v) → (setAll f L m).Holds K v := by
  intro L
  induction L with
  | nil =>
    intro m _ h
    rcases h with ⟨kv, hkv, _⟩ | h
    · exact absurd hkv (List.not_mem_nil _)
    · exact h
  | cons ab rest ih =>
    intro m hall h
    obtain ⟨a, b⟩ := ab
    rw [setAll]
    have hrest : ∀ kv ∈ rest, f kv.1 = K → kv.2 = v :=
      fun kv hkv => hall kv (List.mem_cons_of_mem _ hkv)
    by_cases ha : f a = K
    · have hb : b = v := hall (a, b) (List.mem_cons_self _ _) ha
      apply ih _ hrest
      right
      rw [ha, hb]
      exact GoMap.holds_set_self m K v
    · rcases h with ⟨kv, hkv, hK⟩ | h
      · rcases List.mem_cons.mp hkv with e | e
        · rw [e] at hK; exact absurd hK ha
        · exact ih _ hrest (Or.inl ⟨kv, e, hK⟩)
      · exact ih _ hrest (Or.inr (GoMap.holds_set_ne m (f a) b K v (fun e => ha e.symm) h))

theorem setAll_mem (f : Bytes → Bytes) : ∀ (L m : GoMap) (kv : Bytes × Bytes),
    kv ∈ setAll f L m → kv ∈ m ∨ ∃ ab ∈ L, kv = (f ab.1, ab.2) := by
  intro L
  induction L with
  | nil => intro m kv h; exact Or.inl h
  | cons ab rest ih =>
    intro m kv h
    obtain ⟨a, b⟩ := ab
    rw [setAll] at h
    rcases ih _ kv h with h1 | ⟨x, hx, e⟩
    · rcases GoMap.mem_set m (f a) b kv h1 with h2 | h2
      · exact Or.inl h2
      · exact Or.inr ⟨(a, b), List.mem_cons_self _ _, h2⟩
    · exact Or.inr ⟨x, List.mem_cons_of_mem _ hx, e⟩

/-! ## C12: the `HTTP_` variables -/

theorem headerLine_split (n v : Bytes) (hn : n ≠ []) (h58 : 58 ∉ n) :
    0 < stringsIndex (n ++ 58 :: v) 58 ∧
    (n ++ 58 :: v).take (stringsIndex (n ++ 58 :: v) 58).toNat = n ∧
    (n ++ 58 :: v).drop ((stringsIndex (n ++ 58 :: v) 58).toNat + 1) = v := by
  have hmem : 58 ∈ n ++ 58 :: v := by simp
  have hidx : (n ++ 58 :: v).indexOf 58 = n.length := by
    rw [List.indexOf_append_of_not_mem h58, List.indexOf_cons_self]
    rfl
  have hs : stringsIndex (n ++ 58 :: v) 58 = (n.length : Int) := by
    unfold stringsIndex
    rw [if_pos hmem, hidx]
  have hpos : 0 < n.length := List.length_pos.mpr hn
  rw [hs]
  refine ⟨by exact_mod_cast hpos, ?_, ?_⟩
  · simp
  · simp

/-! ## C13: the bytes of the Params stream -/

theorem Sends.payload_eq {c c1 : CgiClient} {w w1 : bufWriter} {p q : Bytes}
    {ch : List Bytes} (h : Sends c w c1 w1 p ch) (e : p = q) : Sends c w c1 w1 q ch :=
  e ▸ h

theorem writePairs_sends : ∀ (m : GoMap) (cgi : CgiClient) (w : bufWriter), NoFail cgi →
    w.err = none → w.pending.length ≤ maxWrite →
    (writePairs cgi w m).1 = none ∧
    ∃ chunks, Sends cgi w (writePairs cgi w m).2.1 (writePairs cgi w m).2.2
      ((m.map encodePair).flatten) chunks := by
  intro m
  induction m with
  | nil =>
    intro cgi w hn he hb
    exact ⟨rfl, [], Sends.nothing cgi w he hb hn⟩
  | cons kv rest ih =>
    intro cgi w hn he hb
    obtain ⟨k, v⟩ := kv
    unfold writePairs
    dsimp only
    obtain ⟨hw1, ch1, hs1⟩ := Write_sends cgi w (encodeSize k.length ++ encodeSize v.length) hn he
    rcases hres1 : bufWriter.Write cgi w (encodeSize k.length ++ encodeSize v.length) with
      ⟨e1, cgi1, w1⟩
    rw [hres1] at hw1 hs1
    simp only at hw1 hs1
    subst hw1
    simp only
    obtain ⟨hw2, ch2, hs2⟩ := Write_sends cgi1 w1 k hs1.noFail hs1.err
    rcases hres2 : bufWriter.Write cgi1 w1 k with ⟨e2, cgi2, w2⟩
    rw [hres2] at hw2 hs2
    simp only at hw2 hs2
    subst hw2
    simp only
    obtain ⟨hw3, ch3, hs3⟩ := Write_sends cgi2 w2 v hs2.noFail hs2.err
    rcases hres3 : bufWriter.Write cgi2 w2 v with ⟨e3, cgi3, w3⟩
    rw [hres3] at hw3 hs3
    simp only at hw3 hs3
    subst hw3
    simp only
    obtain ⟨hok, ch4, hs4⟩ := ih cgi3 w3 hs3.noFail hs3.err hs3.bound
    refine ⟨hok, ch1 ++ ch2 ++ ch3 ++ ch4, ?_⟩
    exact (((hs1.comp hs2).comp hs3).comp hs4).payload_eq
      (by simp [encodePair])

/-- The end of a stream on a transport that accepts every write: after the
writes, `Close` leaves on the trace the payload cut into records and then the
empty record. -/
theorem stream_finish (c c1 cX : CgiClient) (w1 : bufWriter) (t id : Nat) (payload : Bytes)
    (chs : List Bytes) (hs : Sends c (newWriter t id) c1 w1 payload chs)
    (hXt : cX.trace = c1.trace) (hXw : cX.wres = c1.wres) :
    ∃ chunks, GoodChunks chunks ∧ chunks.flatten = payload ∧
      (bufWriter.Close cX w1).2.trace =
        c.trace ++ chunkWrites t id chunks ++ [Event.write (recordBytes t id [])] := by
  have hnX : NoFail cX := by
    unfold NoFail
    rw [hXw]
    exact hs.noFail
  have hc := Close_sends cX w1 hnX hs.err
  rw [hs.recType, hs.reqId, hXt, hs.trace] at hc
  have hb : chs.flatten ++ w1.pending = payload := hs.bytes
  refine ⟨chs ++ (if w1.pending = [] then [] else [w1.pending]), ?_, ?_, ?_⟩
  · intro x hx
    rcases List.mem_append.mp hx with h | h
    · exact hs.good x h
    · by_cases hp : w1.pending = []
      · rw [if_pos hp] at h; cases h
      · rw [if_neg hp] at h
        have hx : x = w1.pending := by simpa using h
        rw [hx]
        exact ⟨hp, hs.bound⟩
  · rw [← hb, List.flatten_append]
    by_cases hp : w1.pending = []
    · rw [if_pos hp, hp]; rfl
    · rw [if_neg hp]; simp
  · rw [hc]
    simp [chunkWrites, newWriter]

theorem writeHeader_eq (o : Oracle) (cgi : CgiClient) (t id : Nat)
    (hbuild : (o.buildEnv
      { cgi.request with lines := (readHeaderLines cgi.request.lines []).2 }).1 = none) :
    writeHeader o cgi t id =
      ((writePairs { cgi with request :=
            { cgi.request with lines := (readHeaderLines cgi.request.lines []).2 } }
          (newWriter t id) (o.rangePairs (paramsEnv o cgi))).1,
        (bufWriter.Close
          (writePairs { cgi with request :=
            { cgi.request with lines := (readHeaderLines cgi.request.lines []).2 } }
            (newWriter t id) (o.rangePairs (paramsEnv o cgi))).2.1
          (writePairs { cgi with request :=
            { cgi.request with lines := (readHeaderLines cgi.request.lines []).2 } }
            (newWriter t id) (o.rangePairs (paramsEnv o cgi))).2.2).2) := by
  unfold writeHeader paramsEnv
  simp only
  rcases hb : o.buildEnv
    { cgi.request with lines := (readHeaderLines cgi.request.lines []).2 } with ⟨e, pairs⟩
  rw [hb] at hbuild
  simp only at hbuild
  subst hbuild
  simp only
  rcases hw : writePairs { cgi with request :=
      { cgi.request with lines := (readHeaderLines cgi.request.lines []).2 } }
    (newWriter t id)
    (o.rangePairs (addHttpHeaders o.unicodeUpper (o.rangeHeaders (readHeaderLines cgi.request.lines []).1)
      pairs)) with ⟨e2, cgi2, w2⟩
  cases e2 <;> rfl

/-- On a transport that accepts every write, when `buildEnv` returns no error,
`writeHeader` returns no error and leaves on the trace the payload of the
Params stream cut into records, then the empty Params record. -/
theorem writeHeader_sends (o : Oracle) (cgi : CgiClient) (t id : Nat) (hn : NoFail cgi)
    (hbuild : (o.buildEnv
      { cgi.request with lines := (readHeaderLines cgi.request.lines []).2 }).1 = none) :
    (writeHeader o cgi t id).1 = none ∧
    ∃ chunks, GoodChunks chunks ∧ chunks.flatten = paramsPayload o cgi ∧
      (writeHeader o cgi t id).2.trace =
        cgi.trace ++ chunkWrites t id chunks ++ [Event.write (recordBytes t id [])] := by
  rw [writeHeader_eq o cgi t id hbuild]
  obtain ⟨hok, chs, hs⟩ := writePairs_sends (o.rangePairs (paramsEnv o cgi))
    { cgi with request :=
      { cgi.request with lines := (readHeaderLines cgi.request.lines []).2 } }
    (newWriter t id) hn rfl (by simp [newWriter])
  refine ⟨hok, ?_⟩
  exact stream_finish
    { cgi with request :=
      { cgi.request with lines := (readHeaderLines cgi.request.lines []).2 } }
    _ _ _ t id _ chs hs rfl rfl

/-! ## Keys of a map -/

theorem GoMap.set_keys (m : GoMap) (k v : Bytes) :
    (m.set k v).map Prod.fst =
      if k ∈ m.map Prod.fst then m.map Prod.fst else m.map Prod.fst ++ [k] := by
  induction m with
  | nil => simp [GoMap.set]
  | cons kv rest ih =>
    obtain ⟨k0, v0⟩ := kv
    unfold GoMap.set
    by_cases h : k0 = k
    · rw [if_pos h]
      simp [h]
    · rw [if_neg h]
      simp only [List.map_cons, ih, List.mem_cons]
      by_cases hk : k ∈ rest.map Prod.fst
      · rw [if_pos hk, if_pos (Or.inr hk)]
      · rw [if_neg hk, if_neg (by
          intro hh
          rcases hh with e | e
          · exact h e.symm
          · exact hk e)]
        rfl

theorem GoMap.set_nodup (m : GoMap) (k v : Bytes) (h : (m.map Prod.fst).Nodup) :
    ((m.set k v).map Prod.fst).Nodup := by
  rw [GoMap.set_keys]
  by_cases hk : k ∈ m.map Prod.fst
  · rw [if_pos hk]; exact h
  · rw [if_neg hk]
    rw [List.nodup_append]
    refine ⟨h, List.nodup_singleton k, ?_⟩
    intro a ha hb
    have : a = k := by simpa using hb
    exact hk (this ▸ ha)

theorem setAll_nodup (f : Bytes → Bytes) : ∀ (L m : GoMap), (m.map Prod.fst).Nodup →
    ((setAll f L m).map Prod.fst).Nodup := by
  intro L
  induction L with
  | nil => intro m h; exact h
  | cons ab rest ih =>
    intro m h
    obtain ⟨a, b⟩ := ab
    rw [setAll]
    exact ih _ (GoMap.set_nodup m (f a) b h)

theorem GoMap.set_perm_filter (m : GoMap) (k v : Bytes) (h : (m.map Prod.fst).Nodup) :
    (m.set k v).Perm ((k, v) :: m.filter (fun kv => decide (kv.1 ≠ k))) := by
  induction m with
  | nil => simp [GoMap.set]
  | cons kv rest ih =>
    obtain ⟨k0, v0⟩ := kv
    have hrest : (rest.map Prod.fst).Nodup := (List.nodup_cons.mp h).2
    have hk0 : k0 ∉ rest.map Prod.fst := (List.nodup_cons.mp h).1
    unfold GoMap.set
    by_cases h0 : k0 = k
    · rw [if_pos h0]
      subst h0
      have hf : rest.filter (fun kv => decide (kv.1 ≠ k0)) = rest := by
        apply List.filter_eq_self.mpr
        intro a ha
        have : a.1 ≠ k0 := fun e => hk0 (e ▸ List.mem_map_of_mem Prod.fst ha)
        simpa using this
      have hfc : ((k0, v0) :: rest).filter (fun kv => decide (kv.1 ≠ k0)) = rest := by
        rw [List.filter_cons_of_neg (by simp)]
        exact hf
      rw [hfc]
    · rw [if_neg h0]
      have hf : ((k0, v0) :: rest).filter (fun kv => decide (kv.1 ≠ k)) =
          (k0, v0) :: rest.filter (fun kv => decide (kv.1 ≠ k)) := by
        simp [List.filter_cons, h0]
      rw [hf]
      exact ((ih hrest).cons (k0, v0)).trans (List.Perm.swap _ _ _)

theorem GoMap.set_perm_congr {m m1 : GoMap} (k v : Bytes) (hp : m.Perm m1)
    (h : (m.map Prod.fst).Nodup) : (m.set k v).Perm (m1.set k v) := by
  have h1 : (m1.map Prod.fst).Nodup := ((hp.map Prod.fst).nodup_iff).mp h
  exact ((GoMap.set_perm_filter m k v h).trans
    ((hp.filter _).cons (k, v))).trans (GoMap.set_perm_filter m1 k v h1).symm

theorem GoMap.set_comm (m : GoMap) (k v k1 v1 : Bytes) (hne : k ≠ k1)
    (h : (m.map Prod.fst).Nodup) :
    ((m.set k v).set k1 v1).Perm ((m.set k1 v1).set k v) := by
  have e1 := (GoMap.set_perm_filter (m.set k v) k1 v1 (GoMap.set_nodup m k v h)).trans
    (((GoMap.set_perm_filter m k v h).filter (fun kv => decide (kv.1 ≠ k1))).cons (k1, v1))
  have e2 := (GoMap.set_perm_filter (m.set k1 v1) k v (GoMap.set_nodup m k1 v1 h)).trans
    (((GoMap.set_perm_filter m k1 v1 h).filter (fun kv => decide (kv.1 ≠ k))).cons (k, v))
  have f1 : ((k, v) :: m.filter (fun kv => decide (kv.1 ≠ k))).filter
      (fun kv => decide (kv.1 ≠ k1)) =
      (k, v) :: (m.filter (fun kv => decide (kv.1 ≠ k))).filter
        (fun kv => decide (kv.1 ≠ k1)) := by
    simp [List.filter_cons, hne]
  have f2 : ((k1, v1) :: m.filter (fun kv => decide (kv.1 ≠ k1))).filter
      (fun kv => decide (kv.1 ≠ k)) =
      (k1, v1) :: (m.filter (fun kv => decide (kv.1 ≠ k1))).filter
        (fun kv => decide (kv.1 ≠ k)) := by
    simp [List.filter_cons, hne.symm]
  rw [f1] at e1
  rw [f2] at e2
  have fc : (m.filter (fun kv => decide (kv.1 ≠ k))).filter (fun kv => decide (kv.1 ≠ k1)) =
      (m.filter (fun kv => decide (kv.1 ≠ k1))).filter (fun kv => decide (kv.1 ≠ k)) := by
    rw [List.filter_filter, List.filter_filter]
    congr 1
    funext kv
    exact Bool.and_comm _ _
  rw [fc] at e1
  exact (e1.trans (List.Perm.swap _ _ _)).trans e2.symm

theorem setAll_congr (f : Bytes → Bytes) : ∀ (L : GoMap) {m m1 : GoMap}, m.Perm m1 →
    (m.map Prod.fst).Nodup → (setAll f L m).Perm (setAll f L m1) := by
  intro L
  induction L with
  | nil => intro m m1 hp _; exact hp
  | cons ab rest ih =>
    intro m m1 hp h
    obtain ⟨a, b⟩ := ab
    rw [setAll, setAll]
    exact ih (GoMap.set_perm_congr (f a) b hp h) (GoMap.set_nodup m (f a) b h)

/-- Assigning the pairs of two lists that are permutations of each other, with
pairwise distinct keys, gives maps with the same entries. -/
theorem setAll_perm (f : Bytes → Bytes) {V1 V2 : GoMap} (hV : V1.Perm V2) :
    (V1.map (fun kv => f kv.1)).Nodup → ∀ {m m1 : GoMap}, m.Perm m1 →
    (m.map Prod.fst).Nodup → (setAll f V1 m).Perm (setAll f V2 m1) := by
  induction hV with
  | nil => intro _ m m1 hp _; exact hp
  | cons x _ ih =>
    intro hnd m m1 hp h
    obtain ⟨a, b⟩ := x
    rw [setAll, setAll]
    exact ih (List.nodup_cons.mp hnd).2 (GoMap.set_perm_congr (f a) b hp h)
      (GoMap.set_nodup m (f a) b h)
  | swap x y l =>
    intro hnd m m1 hp h
    obtain ⟨a, b⟩ := x
    obtain ⟨c, d⟩ := y
    simp only [setAll]
    have hne : f c ≠ f a := by
      intro e
      have := (List.nodup_cons.mp hnd).1
      apply this
      simp [e]
    have e1 : ((m.set (f c) d).set (f a) b).Perm ((m1.set (f a) b).set (f c) d) :=
      (GoMap.set_comm m (f c) d (f a) b hne h).trans
        (GoMap.set_perm_congr (f c) d (GoMap.set_perm_congr (f a) b hp h)
          (GoMap.set_nodup m (f a) b h))
    exact setAll_congr f l e1 (GoMap.set_nodup _ (f a) b (GoMap.set_nodup m (f c) d h))
  | trans h12 _ ih1 ih2 =>
    intro hnd m m1 hp h
    have hnd2 := ((h12.map (fun kv => f kv.1)).nodup_iff).mp hnd
    exact (ih1 hnd (List.Perm.refl m) h).trans (ih2 hnd2 hp h)

theorem paramsEnv_nodup (o : Oracle) (cgi : CgiClient)
    (hkeys : ((o.buildEnv
      { cgi.request with lines := (readHeaderLines cgi.request.lines []).2 }).2.map
        Prod.fst).Nodup) :
    ((paramsEnv o cgi).map Prod.fst).Nodup := by
  unfold paramsEnv
  rw [addHttpHeaders_eq_setAll]
  exact setAll_nodup (httpName o.unicodeUpper) _ _ hkeys

theorem indexOf_split (a : Nat) : ∀ (l : Bytes), a ∈ l →
    l = l.take (l.indexOf a) ++ a :: l.drop (l.indexOf a + 1) ∧ a ∉ l.take (l.indexOf a) := by
  intro l
  induction l with
  | nil => intro h; exact absurd h (List.not_mem_nil _)
  | cons x xs ih =>
    intro h
    by_cases hx : x = a
    · rw [List.indexOf_cons_eq xs hx]
      subst hx
      simp
    · rw [List.indexOf_cons_ne xs hx]
      have hxs : a ∈ xs := by
        rcases List.mem_cons.mp h with e | e
        · exact absurd e.symm hx
        · exact e
      obtain ⟨h1, h2⟩ := ih hxs
      refine ⟨?_, ?_⟩
      · simp only [List.take_succ_cons, List.drop_succ_cons, List.cons_append]
        rw [← h1]
      · simp only [List.take_succ_cons]
        intro hm
        rcases List.mem_cons.mp hm with e | e
        · exact hx e.symm
        · exact h2 e

/-- When line 129 finds a `:` after the first byte, the line is the name, the
`:` and the value, and the name is non-empty and holds no `:`. -/
theorem stringsIndex_split (line : Bytes) (h : 0 < stringsIndex line 58) :
    line = line.take (stringsIndex line 58).toNat ++
        58 :: line.drop ((stringsIndex line 58).toNat + 1) ∧
      58 ∉ line.take (stringsIndex line 58).toNat ∧
      line.take (stringsIndex line 58).toNat ≠ [] := by
  unfold stringsIndex at h ⊢
  by_cases hm : 58 ∈ line
  · rw [if_pos hm] at h ⊢
    have hpos : 0 < line.indexOf 58 := by exact_mod_cast h
    obtain ⟨h1, h2⟩ := indexOf_split 58 line hm
    simp only [Int.toNat_ofNat]
    refine ⟨h1, h2, ?_⟩
    intro he
    have hl : (line.take (line.indexOf 58)).length = 0 := by rw [he]; rfl
    rw [List.length_take] at hl
    have hlt : line.indexOf 58 < line.length := List.indexOf_lt_length.mpr hm
    omega
  · rw [if_neg hm] at h
    exact absurd h (by decide)

theorem readHeaderLines_cons (line : Bytes) (err : Option GoError)
    (rest : List (Bytes × Option GoError)) (m : GoMap) :
    readHeaderLines ((line, err) :: rest) m =
      if line.length = 0 ∨ err = some GoError.eof then (m, rest)
      else if err = none ∧ 0 < stringsIndex line 58 then
        readHeaderLines rest (m.set (line.take (stringsIndex line 58).toNat)
          (line.drop ((stringsIndex line 58).toNat + 1)))
      else readHeaderLines rest m := by
  rw [readHeaderLines]
  by_cases h0 : line.length = 0
  · simp [h0]
  · by_cases he : err = some GoError.eof
    · simp [h0, he]
    · by_cases hn : err = none
      · by_cases hs : 0 < stringsIndex line 58
        · simp [h0, hn, hs]
        · simp [h0, hn, hs]
      · simp [h0, he, hn]

theorem beforeEnd_cons_stop (line : Bytes) (err : Option GoError)
    (rest : List (Bytes × Option GoError)) (h : line.length = 0 ∨ err = some GoError.eof) :
    beforeEnd ((line, err) :: rest) = [] := by
  unfold beforeEnd
  rw [List.takeWhile_cons]
  rcases h with h | h <;> simp [h]

theorem beforeEnd_cons_go (line : Bytes) (err : Option GoError)
    (rest : List (Bytes × Option GoError)) (h : ¬ (line.length = 0 ∨ err = some GoError.eof)) :
    beforeEnd ((line, err) :: rest) = (line, err) :: beforeEnd rest := by
  unfold beforeEnd
  rw [List.takeWhile_cons]
  have h1 : ¬ line.length = 0 := fun e => h (Or.inl e)
  have h2 : ¬ err = some GoError.eof := fun e => h (Or.inr e)
  simp [h1, h2]

theorem InboundHeader.later {line : Bytes} {err : Option GoError}
    {rest : List (Bytes × Option GoError)} {n v : Bytes}
    (h : ¬ (line.length = 0 ∨ err = some GoError.eof)) (hin : InboundHeader rest n v) :
    InboundHeader ((line, err) :: rest) n v := by
  obtain ⟨h1, h2, h3⟩ := hin
  refine ⟨h1, h2, ?_⟩
  rw [beforeEnd_cons_go line err rest h]
  exact List.mem_cons_of_mem _ h3

/-- Every entry of the map that the loop of lines 116-134 builds was in the map
before or comes from an inbound header line. -/
theorem readHeaderLines_mem : ∀ (lines : List (Bytes × Option GoError)) (m : GoMap)
    (kv : Bytes × Bytes), kv ∈ (readHeaderLines lines m).1 →
    kv ∈ m ∨ InboundHeader lines kv.1 kv.2 := by
  intro lines
  induction lines with
  | nil => intro m kv h; exact Or.inl h
  | cons le rest ih =>
    intro m kv h
    obtain ⟨line, err⟩ := le
    rw [readHeaderLines_cons] at h
    split_ifs at h with h1 h2
    · exact Or.inl h
    · rcases ih _ kv h with hm | hin
      · rcases GoMap.mem_set m _ _ kv hm with e | e
        · exact Or.inl e
        · right
          obtain ⟨s1, s2, s3⟩ := stringsIndex_split line h2.2
          rw [e]
          refine ⟨s3, s2, ?_⟩
          rw [beforeEnd_cons_go line err rest h1, ← s1, h2.1]
          exact List.mem_cons_self _ _
      · exact Or.inr (InboundHeader.later h1 hin)
    · rcases ih _ kv h with hm | hin
      · exact Or.inl hm
      · exact Or.inr (InboundHeader.later h1 hin)

theorem GoMap.keys_set_mono (m : GoMap) (k v k1 : Bytes) (h : k1 ∈ m.map Prod.fst) :
    k1 ∈ (m.set k v).map Prod.fst := by
  rw [GoMap.set_keys]
  split_ifs
  · exact h
  · exact List.mem_append_left _ h

theorem GoMap.key_set_self (m : GoMap) (k v : Bytes) : k ∈ (m.set k v).map Prod.fst :=
  List.mem_map.mpr ⟨(k, v), (GoMap.holds_set_self m k v).1, rfl⟩

theorem readHeaderLines_keys_mono : ∀ (lines : List (Bytes × Option GoError)) (m : GoMap)
    (k : Bytes), k ∈ m.map Prod.fst → k ∈ (readHeaderLines lines m).1.map Prod.fst := by
  intro lines
  induction lines with
  | nil => intro m k h; exact h
  | cons le rest ih =>
    intro m k h
    obtain ⟨line, err⟩ := le
    rw [readHeaderLines_cons]
    split_ifs
    · exact h
    · exact ih _ k (GoMap.keys_set_mono m _ _ k h)
    · exact ih _ k h

/-- The name of every inbound header line is a key of the map that the loop of
lines 116-134 builds: lines that come before it, read with an error or without
a name, are passed over. -/
theorem readHeaderLines_key : ∀ (lines : List (Bytes × Option GoError)) (m : GoMap)
    (n v : Bytes), InboundHeader lines n v → n ∈ (readHeaderLines lines m).1.map Prod.fst := by
  intro lines
  induction lines with
  | nil =>
    intro m n v hin
    exact absurd hin.2.2 (List.not_mem_nil _)
  | cons le rest ih =>
    intro m n v hin
    obtain ⟨line, err⟩ := le
    obtain ⟨hn, h58, hmem⟩ := hin
    by_cases h1 : line.length = 0 ∨ err = some GoError.eof
    · rw [beforeEnd_cons_stop line err rest h1] at hmem
      exact absurd hmem (List.not_mem_nil _)
    · rw [beforeEnd_cons_go line err rest h1] at hmem
      rw [readHeaderLines_cons, if_neg h1]
      rcases List.mem_cons.mp hmem with e | e
      · have e1 : line = n ++ 58 :: v := (congrArg Prod.fst e).symm
        have e2 : err = none := (congrArg Prod.snd e).symm
        obtain ⟨hpos, htake, hdrop⟩ := headerLine_split n v hn h58
        rw [if_pos ⟨e2, by rw [e1]; exact hpos⟩, e1, htake, hdrop]
        exact readHeaderLines_keys_mono rest _ n (GoMap.key_set_self m n v)
      · split_ifs
        · exact ih _ n v ⟨hn, h58, e⟩
        · exact ih _ n v ⟨hn, h58, e⟩

theorem readHeaderLines_nodup : ∀ (lines : List (Bytes × Option GoError)) (m : GoMap),
    (m.map Prod.fst).Nodup → ((readHeaderLines lines m).1.map Prod.fst).Nodup := by
  intro lines
  induction lines with
  | nil => intro m h; exact h
  | cons le rest ih =>
    intro m h
    obtain ⟨line, err⟩ := le
    rw [readHeaderLines_cons]
    split_ifs
    · exact h
    · exact ih _ (GoMap.set_nodup m _ _ h)
    · exact ih _ h

/-- After the assignments, a key that some pair of the list is assigned to is held
with the value of one of these pairs. -/
theorem setAll_holds_some (f : Bytes → Bytes) (K : Bytes) : ∀ (L m : GoMap),
    (∃ kv ∈ L, f kv.1 = K) → ∃ kv ∈ L, f kv.1 = K ∧ (setAll f L m).Holds K kv.2 := by
  intro L
  induction L with
  | nil =>
    intro m h
    obtain ⟨kv, hkv, _⟩ := h
    exact absurd hkv (List.not_mem_nil _)
  | cons ab rest ih =>
    intro m h
    obtain ⟨a, b⟩ := ab
    rw [setAll]
    by_cases hr : ∃ kv ∈ rest, f kv.1 = K
    · obtain ⟨kv, hkv, hK, hh⟩ := ih (m.set (f a) b) hr
      exact ⟨kv, List.mem_cons_of_mem _ hkv, hK, hh⟩
    · have ha : f a = K := by
        obtain ⟨kv, hkv, hK⟩ := h
        rcases List.mem_cons.mp hkv with e | e
        · rw [e] at hK; exact hK
        · exact absurd ⟨kv, e, hK⟩ hr
      refine ⟨(a, b), List.mem_cons_self _ _, ha, ?_⟩
      apply setAll_holds f K b rest
      · intro kv hkv hK
        exact absurd ⟨kv, hkv, hK⟩ hr
      · right
        rw [ha]
        exact GoMap.holds_set_self m K b

/-! ## C12: the `HTTP_` variables -/

/-- C12 (counterexample): two inbound header lines `A:1` and `A:2`.  The
environment holds `HTTP_A` with the value of the second line; no variable
carries the value of the first. -/
theorem repeated_header_keeps_last_value :
    (ascii "HTTP_A", ascii "1") ∉
      paramsEnv (sampleOracle false)
        (sampleClient (sampleRequestLines
          [headerLine (ascii "A", ascii "1"), headerLine (ascii "A", ascii "2")]) []) ∧
    (paramsEnv (sampleOracle false)
        (sampleClient (sampleRequestLines
          [headerLine (ascii "A", ascii "1"), headerLine (ascii "A", ascii "2")]) [])).get
      (ascii "HTTP_A") = ascii "2" := by
  decide

/-- C12 (amended): for every inbound header line `name ':' value` with a non-empty
name, read before the end of the headers, whatever other results the reader
gives, the environment that `writeHeader` encodes holds the variable
`"HTTP_" ++ N`, where `N` is `strings.ToUpper(name)` with every `-` replaced by
`_` (for an ASCII name: the letters a-z upper-cased).  Its value is the value
of an inbound header line that gives the same `N`, hence that line's value when
all the lines that give this `N` carry the same value.  Every variable occurs
once in the environment: the lines that give the same `N` yield one variable.
On a transport that accepts every write, when `buildEnv` returns no error, the
Params stream that `writeHeader` writes contains the encoding of this
variable. -/
theorem paramsEnv_holds_header (o : Oracle) (cgi : CgiClient) (reqId : Nat)
    (name value : Bytes) (hperm : o.Permutes)
    (hkeys : ((o.buildEnv
      { cgi.request with lines := (readHeaderLines cgi.request.lines []).2 }).2.map
        Prod.fst).Nodup)
    (hin : InboundHeader cgi.request.lines name value) :
    ∃ v : Bytes,
      (paramsEnv o cgi).Holds
        (ascii "HTTP_" ++ stringsReplaceDash (stringsToUpper o.unicodeUpper name)) v ∧
      (∃ name1, InboundHeader cgi.request.lines name1 v ∧
        httpName o.unicodeUpper name1 = httpName o.unicodeUpper name) ∧
      ((∀ name1 value1, InboundHeader cgi.request.lines name1 value1 →
          httpName o.unicodeUpper name1 = httpName o.unicodeUpper name → value1 = value) →
        v = value) ∧
      ((paramsEnv o cgi).map Prod.fst).Nodup ∧
      ((∀ b ∈ name, b < 128) →
        stringsReplaceDash (stringsToUpper o.unicodeUpper name) =
          name.map (fun b => if b = 45 then 95 else if 97 ≤ b ∧ b ≤ 122 then b - 32 else b)) ∧
      (NoFail cgi →
        (o.buildEnv
          { cgi.request with lines := (readHeaderLines cgi.request.lines []).2 }).1 = none →
        ∃ (chunks : List Bytes) (pre post : Bytes), GoodChunks chunks ∧
          (writeHeader o cgi typeParams reqId).2.trace =
            cgi.trace ++ chunkWrites typeParams reqId chunks ++
              [Event.write (recordBytes typeParams reqId [])] ∧
          chunks.flatten = pre ++
            encodePair (ascii "HTTP_" ++ stringsReplaceDash (stringsToUpper o.unicodeUpper name),
              v) ++ post) := by
  have hkey := readHeaderLines_key cgi.request.lines [] name value hin
  obtain ⟨nv0, hnv0, hname0⟩ := List.mem_map.mp hkey
  have hV : ∃ kv ∈ o.rangeHeaders (readHeaderLines cgi.request.lines []).1,
      httpName o.unicodeUpper kv.1 = httpName o.unicodeUpper name :=
    ⟨nv0, (hperm.1 _).mem_iff.mpr hnv0, by rw [hname0]⟩
  obtain ⟨kv, hkv, hK, hh⟩ := setAll_holds_some (httpName o.unicodeUpper)
    (httpName o.unicodeUpper name) (o.rangeHeaders (readHeaderLines cgi.request.lines []).1)
    (o.buildEnv { cgi.request with lines := (readHeaderLines cgi.request.lines []).2 }).2 hV
  have henv : (paramsEnv o cgi).Holds (httpName o.unicodeUpper name) kv.2 := by
    unfold paramsEnv
    rw [addHttpHeaders_eq_setAll]
    exact hh
  have hline : InboundHeader cgi.request.lines kv.1 kv.2 := by
    rcases readHeaderLines_mem cgi.request.lines [] kv ((hperm.1 _).mem_iff.mp hkv) with h | h
    · exact absurd h (List.not_mem_nil _)
    · exact h
  refine ⟨kv.2, henv, ⟨kv.1, hline, hK⟩, fun hall => hall kv.1 kv.2 hline hK,
    paramsEnv_nodup o cgi hkeys, ?_, ?_⟩
  · intro hascii
    unfold stringsReplaceDash stringsToUpper
    rw [if_pos (by simpa using hascii), List.map_map]
    apply List.map_congr_left
    intro b _
    simp only [Function.comp]
    split_ifs <;> omega
  · intro hn hbuild
    obtain ⟨_, chunks, hg, hf, ht⟩ := writeHeader_sends o cgi typeParams reqId hn hbuild
    have hmem : (httpName o.unicodeUpper name, kv.2) ∈ o.rangePairs (paramsEnv o cgi) :=
      (hperm.2 _).mem_iff.mpr henv.1
    obtain ⟨s, t, hst⟩ := List.append_of_mem hmem
    refine ⟨chunks, (s.map encodePair).flatten, (t.map encodePair).flatten, hg, ht, ?_⟩
    rw [hf]
    unfold paramsPayload
    rw [hst]
    simp [httpName]

/-- Witness of C12: a line without `:`, a line read with an error, the lines
`Accept-Language: en` and `Host: x`, then the empty line. -/
theorem paramsEnv_holds_header_witness :
    InboundHeader sampleHeaderClient.request.lines (ascii "Accept-Language") (ascii " en") ∧
    ∃ v : Bytes,
      (paramsEnv (sampleOracle false) sampleHeaderClient).Holds
        (ascii "HTTP_" ++ stringsReplaceDash
          (stringsToUpper (sampleOracle false).unicodeUpper (ascii "Accept-Language"))) v ∧
      (∃ name1, InboundHeader sampleHeaderClient.request.lines name1 v ∧
        httpName (sampleOracle false).unicodeUpper name1 =
          httpName (sampleOracle false).unicodeUpper (ascii "Accept-Language")) ∧
      ((∀ name1 value1, InboundHeader sampleHeaderClient.request.lines name1 value1 →
          httpName (sampleOracle false).unicodeUpper name1 =
            httpName (sampleOracle false).unicodeUpper (ascii "Accept-Language") →
          value1 = ascii " en") →
        v = ascii " en") ∧
      ((paramsEnv (sampleOracle false) sampleHeaderClient).map Prod.fst).Nodup ∧
      ((∀ b ∈ ascii "Accept-Language", b < 128) →
        stringsReplaceDash
            (stringsToUpper (sampleOracle false).unicodeUpper (ascii "Accept-Language")) =
          (ascii "Accept-Language").map
            (fun b => if b = 45 then 95 else if 97 ≤ b ∧ b ≤ 122 then b - 32 else b)) ∧
      (NoFail sampleHeaderClient →
        ((sampleOracle false).buildEnv
          { sampleHeaderClient.request with
            lines := (readHeaderLines sampleHeaderClient.request.lines []).2 }).1 = none →
        ∃ (chunks : List Bytes) (pre post : Bytes), GoodChunks chunks ∧
          (writeHeader (sampleOracle false) sampleHeaderClient typeParams 7).2.trace =
            sampleHeaderClient.trace ++ chunkWrites typeParams 7 chunks ++
              [Event.write (recordBytes typeParams 7 [])] ∧
          chunks.flatten = pre ++
            encodePair (ascii "HTTP_" ++ stringsReplaceDash
              (stringsToUpper (sampleOracle false).unicodeUpper (ascii "Accept-Language")),
              v) ++ post) :=
  ⟨⟨by decide, by decide, by decide⟩,
    paramsEnv_holds_header (sampleOracle false) sampleHeaderClient 7
      (ascii "Accept-Language") (ascii " en")
      ⟨fun m => List.Perm.refl m, fun m => List.Perm.refl m⟩ (by decide)
      ⟨by decide, by decide, by decide⟩⟩

/-- C13: on a transport that accepts every write, when `buildEnv` returns a map
without error, the bytes that `writeHeader` writes to the Params stream are the
concatenation, over the pairs of the environment map each taken exactly once
in the order of the `range` loop, of the size field of the key length, the
size field of the value length, the key and the value; they leave as Params
records followed by the empty record.  The size field of `n` is the byte `n`
for `n <= 127` and else the four big-endian bytes of `0x80000000 | n`. -/
theorem writeHeader_params_stream (o : Oracle) (cgi : CgiClient) (reqId : Nat)
    (hn : NoFail cgi)
    (hbuild : (o.buildEnv
      { cgi.request with lines := (readHeaderLines cgi.request.lines []).2 }).1 = none)
    (hperm : ∀ m, (o.rangePairs m).Perm m)
    (hkeys : ((o.buildEnv
      { cgi.request with lines := (readHeaderLines cgi.request.lines []).2 }).2.map
        Prod.fst).Nodup) :
    ∃ (order : GoMap) (chunks : List Bytes), order.Perm (paramsEnv o cgi) ∧ (order.map Prod.fst).Nodup ∧
      GoodChunks chunks ∧
      chunks.flatten = (order.map (fun kv =>
        encodeSize kv.1.length ++ encodeSize kv.2.length ++ kv.1 ++ kv.2)).flatten ∧
      (writeHeader o cgi typeParams reqId).2.trace =
        cgi.trace ++ chunkWrites typeParams reqId chunks ++
          [Event.write (recordBytes typeParams reqId [])] ∧
      (∀ n, n ≤ 127 → encodeSize n = [n]) ∧
      (∀ n, 127 < n → n < 4294967296 → encodeSize n = putUint32 (2147483648 ||| n)) := by
  obtain ⟨_, chunks, hg, hf, ht⟩ := writeHeader_sends o cgi typeParams reqId hn hbuild
  refine ⟨o.rangePairs (paramsEnv o cgi), chunks, hperm _, ?_, hg, hf, ht, ?_, ?_⟩
  · exact (((hperm _).map Prod.fst).nodup_iff).mpr (paramsEnv_nodup o cgi hkeys)
  · intro n hle
    have h1 : n % 4294967296 = n := Nat.mod_eq_of_lt (by omega)
    unfold encodeSize
    simp only [h1]
    rw [if_neg (by omega)]
  · intro n hgt hlt
    have h1 : n % 4294967296 = n := Nat.mod_eq_of_lt hlt
    unfold encodeSize
    simp only [h1]
    rw [if_pos hgt]
    rw [Nat.lor_comm]

/-- Witness of C13: the environment of `sampleOracle`, no inbound header. -/
theorem writeHeader_params_stream_witness :
    ∃ (order : GoMap) (chunks : List Bytes),
      order.Perm (paramsEnv (sampleOracle false)
        (sampleClient (sampleRequest (ascii "GET") [] []) [])) ∧
      (order.map Prod.fst).Nodup ∧ GoodChunks chunks ∧
      chunks.flatten = (order.map (fun kv =>
        encodeSize kv.1.length ++ encodeSize kv.2.length ++ kv.1 ++ kv.2)).flatten ∧
      (writeHeader (sampleOracle false)
        (sampleClient (sampleRequest (ascii "GET") [] []) []) typeParams 7).2.trace =
        (sampleClient (sampleRequest (ascii "GET") [] []) []).trace ++
          chunkWrites typeParams 7 chunks ++ [Event.write (recordBytes typeParams 7 [])] ∧
      (∀ n, n ≤ 127 → encodeSize n = [n]) ∧
      (∀ n, 127 < n → n < 4294967296 → encodeSize n = putUint32 (2147483648 ||| n)) :=
  writeHeader_params_stream (sampleOracle false)
    (sampleClient (sampleRequest (ascii "GET") [] []) []) 7
    (fun r hr => absurd hr (List.not_mem_nil r)) rfl (fun m => List.Perm.refl m) (by decide)

/-! ## C18: two runs of `writeHeader` -/

/-- C18 (counterexample): two runs on the same request whose `range pairs` loops
visit the two pairs of the environment in opposite orders write different
bytes to the Params stream. -/
theorem params_order_changes_bytes :
    (writeHeader (sampleOracleOrder (fun m => m))
        (sampleClient (sampleRequest (ascii "GET") [] []) []) typeParams 7).2.trace =
      [Event.write (recordBytes typeParams 7 [1, 1, 65, 98, 1, 1, 67, 100]),
        Event.write (recordBytes typeParams 7 [])] ∧
    (writeHeader (sampleOracleOrder List.reverse)
        (sampleClient (sampleRequest (ascii "GET") [] []) []) typeParams 7).2.trace =
      [Event.write (recordBytes typeParams 7 [1, 1, 67, 100, 1, 1, 65, 98]),
        Event.write (recordBytes typeParams 7 [])] ∧
    (writeHeader (sampleOracleOrder (fun m => m))
        (sampleClient (sampleRequest (ascii "GET") [] []) []) typeParams 7).2.trace ≠
      (writeHeader (sampleOracleOrder List.reverse)
        (sampleClient (sampleRequest (ascii "GET") [] []) []) typeParams 7).2.trace := by
  decide

/-- C18 (amended): for two runs of `writeHeader` on the same request and the same
inbound header lines, with the same result of `buildEnv` (without error, its
keys distinct), the same `strings.ToUpper`, no two different inbound header
names that give the same `HTTP_` variable, and a transport that accepts every
write: the two runs encode the same environment, and the bytes that each run
writes to the Params stream are the concatenation of the encodings of the
pairs of this environment, each pair exactly once, in the order in which the
`range` loop of that run visits them.  The two orders are permutations of the
same environment and need not be equal. -/
theorem writeHeader_same_pairs (o1 o2 : Oracle) (cgi : CgiClient) (reqId : Nat)
    (hn : NoFail cgi) (hsame : o1.buildEnv = o2.buildEnv)
    (hup : o1.unicodeUpper = o2.unicodeUpper)
    (hbuild : (o1.buildEnv
      { cgi.request with lines := (readHeaderLines cgi.request.lines []).2 }).1 = none)
    (hp1 : o1.Permutes) (hp2 : o2.Permutes)
    (hkeys : ((o1.buildEnv
      { cgi.request with lines := (readHeaderLines cgi.request.lines []).2 }).2.map
        Prod.fst).Nodup)
    (hdistinct : ∀ n1 v1 n2 v2, InboundHeader cgi.request.lines n1 v1 →
      InboundHeader cgi.request.lines n2 v2 →
      httpName o1.unicodeUpper n1 = httpName o1.unicodeUpper n2 → n1 = n2) :
    (paramsEnv o2 cgi).Perm (paramsEnv o1 cgi) ∧
    ∃ (order1 order2 : GoMap) (chunks1 chunks2 : List Bytes),
      order1.Perm (paramsEnv o1 cgi) ∧ order2.Perm (paramsEnv o1 cgi) ∧
      (order1.map Prod.fst).Nodup ∧ (order2.map Prod.fst).Nodup ∧
      GoodChunks chunks1 ∧ GoodChunks chunks2 ∧
      chunks1.flatten = (order1.map encodePair).flatten ∧
      chunks2.flatten = (order2.map encodePair).flatten ∧
      (writeHeader o1 cgi typeParams reqId).2.trace =
        cgi.trace ++ chunkWrites typeParams reqId chunks1 ++
          [Event.write (recordBytes typeParams reqId [])] ∧
      (writeHeader o2 cgi typeParams reqId).2.trace =
        cgi.trace ++ chunkWrites typeParams reqId chunks2 ++
          [Event.write (recordBytes typeParams reqId [])] := by
  have hbuild2 : (o2.buildEnv
      { cgi.request with lines := (readHeaderLines cgi.request.lines []).2 }).1 = none := by
    rw [← hsame]; exact hbuild
  obtain ⟨_, chunks1, hg1, hf1, ht1⟩ := writeHeader_sends o1 cgi typeParams reqId hn hbuild
  obtain ⟨_, chunks2, hg2, hf2, ht2⟩ := writeHeader_sends o2 cgi typeParams reqId hn hbuild2
  have hV : (o1.rangeHeaders (readHeaderLines cgi.request.lines []).1).Perm
      (o2.rangeHeaders (readHeaderLines cgi.request.lines []).1) :=
    (hp1.1 _).trans (hp2.1 _).symm
  have hH : ((readHeaderLines cgi.request.lines []).1.map Prod.fst).Nodup :=
    readHeaderLines_nodup cgi.request.lines [] List.nodup_nil
  have hinj : ∀ a ∈ (readHeaderLines cgi.request.lines []).1,
      ∀ b ∈ (readHeaderLines cgi.request.lines []).1,
      httpName o1.unicodeUpper a.1 = httpName o1.unicodeUpper b.1 → a.1 = b.1 := by
    intro a ha b hb he
    rcases readHeaderLines_mem cgi.request.lines [] a ha with h | h
    · exact absurd h (List.not_mem_nil _)
    · rcases readHeaderLines_mem cgi.request.lines [] b hb with h2 | h2
      · exact absurd h2 (List.not_mem_nil _)
      · exact hdistinct a.1 a.2 b.1 b.2 h h2 he
  have hHn : ((readHeaderLines cgi.request.lines []).1.map
      (fun kv => httpName o1.unicodeUpper kv.1)).Nodup := by
    have hc : (readHeaderLines cgi.request.lines []).1.map
        (fun kv => httpName o1.unicodeUpper kv.1) =
        ((readHeaderLines cgi.request.lines []).1.map Prod.fst).map
          (httpName o1.unicodeUpper) := by
      rw [List.map_map]; rfl
    rw [hc]
    apply List.Nodup.map_on _ hH
    intro x hx y hy he
    obtain ⟨a, ha, hax⟩ := List.mem_map.mp hx
    obtain ⟨b, hb, hby⟩ := List.mem_map.mp hy
    rw [← hax, ← hby]
    exact hinj a ha b hb (by rw [hax, hby]; exact he)
  have hnd : ((o1.rangeHeaders (readHeaderLines cgi.request.lines []).1).map
      (fun kv => httpName o1.unicodeUpper kv.1)).Nodup :=
    ((((hp1.1 _).map (fun kv => httpName o1.unicodeUpper kv.1)).nodup_iff).mpr hHn)
  have henv : (paramsEnv o1 cgi).Perm (paramsEnv o2 cgi) := by
    unfold paramsEnv
    rw [addHttpHeaders_eq_setAll, addHttpHeaders_eq_setAll, ← hsame, ← hup]
    exact setAll_perm (httpName o1.unicodeUpper) hV hnd (List.Perm.refl _) hkeys
  have hk1 : ((paramsEnv o1 cgi).map Prod.fst).Nodup := paramsEnv_nodup o1 cgi hkeys
  refine ⟨henv.symm, o1.rangePairs (paramsEnv o1 cgi), o2.rangePairs (paramsEnv o2 cgi),
    chunks1, chunks2, hp1.2 _, (hp2.2 _).trans henv.symm, ?_, ?_, hg1, hg2, hf1, hf2, ht1, ht2⟩
  · exact (((hp1.2 _).map Prod.fst).nodup_iff).mpr hk1
  · exact (((((hp2.2 _).trans henv.symm)).map Prod.fst).nodup_iff).mpr hk1

/-- Witness of C18: the two visiting orders of the counterexample, on a request
with the inbound header lines `Accept-Language: en` and `Host: x`. -/
theorem writeHeader_same_pairs_witness :
    (paramsEnv (sampleOracleOrder List.reverse)
      sampleHeaderClient).Perm
      (paramsEnv (sampleOracleOrder (fun m => m))
        sampleHeaderClient) ∧
    ∃ (order1 order2 : GoMap) (chunks1 chunks2 : List Bytes),
      order1.Perm (paramsEnv (sampleOracleOrder (fun m => m))
        sampleHeaderClient) ∧
      order2.Perm (paramsEnv (sampleOracleOrder (fun m => m))
        sampleHeaderClient) ∧
      (order1.map Prod.fst).Nodup ∧ (order2.map Prod.fst).Nodup ∧
      GoodChunks chunks1 ∧ GoodChunks chunks2 ∧
      chunks1.flatten = (order1.map encodePair).flatten ∧
      chunks2.flatten = (order2.map encodePair).flatten ∧
      (writeHeader (sampleOracleOrder (fun m => m))
        sampleHeaderClient typeParams 7).2.trace =
        sampleHeaderClient.trace ++
          chunkWrites typeParams 7 chunks1 ++ [Event.write (recordBytes typeParams 7 [])] ∧
      (writeHeader (sampleOracleOrder List.reverse)
        sampleHeaderClient typeParams 7).2.trace =
        sampleHeaderClient.trace ++
          chunkWrites typeParams 7 chunks2 ++ [Event.write (recordBytes typeParams 7 [])] :=
  writeHeader_same_pairs (sampleOracleOrder (fun m => m)) (sampleOracleOrder List.reverse)
    sampleHeaderClient 7
    (fun r hr => absurd hr (List.not_mem_nil r)) rfl rfl rfl
    ⟨fun m => List.Perm.refl m, fun m => List.Perm.refl m⟩
    ⟨fun m => List.Perm.refl m, fun m => List.reverse_perm m⟩
    (by decide)
    (by
      intro n1 v1 n2 v2 h1 h2 he
      have k1 := readHeaderLines_key sampleHeaderClient.request.lines [] n1 v1 h1
      have k2 := readHeaderLines_key sampleHeaderClient.request.lines [] n2 v2 h2
      have e : (readHeaderLines sampleHeaderClient.request.lines []).1.map Prod.fst =
          [ascii "Accept-Language", ascii "Host"] := by decide
      rw [e] at k1 k2
      simp only [List.mem_cons, List.mem_singleton, List.not_mem_nil, or_false] at k1 k2
      rcases k1 with e1 | e1 <;> rcases k2 with e2 | e2
      · rw [e1, e2]
      · rw [e1, e2] at he; exact absurd he (by decide)
      · rw [e1, e2] at he; exact absurd he (by decide)
      · rw [e1, e2])

/-! ## C14: the order of the records -/

theorem Close_last (cgi : CgiClient) (w : bufWriter) :
    ∃ pre, (bufWriter.Close cgi w).2.trace =
        cgi.trace ++ (pre ++ [Event.write (recordBytes w.recType w.reqId [])]) ∧
      ∀ e ∈ pre, IsRecord w.recType w.reqId e := by
  unfold bufWriter.Close
  split
  · exact ⟨[], by rw [writeRecord_trace]; rfl, fun e he => absurd he (List.not_mem_nil _)⟩
  · split
    · exact ⟨[], by rw [writeRecord_trace]; rfl, fun e he => absurd he (List.not_mem_nil _)⟩
    · have ht := writeRecord_trace cgi w.recType w.reqId w.pending
      refine ⟨[Event.write (recordBytes w.recType w.reqId w.pending)], ?_,
        fun e he => ⟨w.pending, by simpa using he⟩⟩
      split
      · next e cgi1 heq =>
        rw [heq] at ht
        simp only at ht
        rw [writeRecord_trace, ht]
        simp
      · next cgi1 heq =>
        rw [heq] at ht
        simp only at ht
        rw [writeRecord_trace, ht]
        simp

/-- A stream step that ends with `Close`: what it adds to the trace are records
of the stream, the last one the empty record. -/
theorem stream_last {c c1 : CgiClient} {w1 : bufWriter} {t id : Nat}
    (h : Ext (IsRecord t id) c c1) (ht : w1.recType = t) (hi : w1.reqId = id)
    (cX : CgiClient) (hX : cX.trace = c1.trace) :
    ∃ pre, (bufWriter.Close cX w1).2.trace =
        c.trace ++ (pre ++ [Event.write (recordBytes t id [])]) ∧
      ∀ e ∈ pre, IsRecord t id e := by
  obtain ⟨⟨added, ha, hall⟩, _, _⟩ := h
  obtain ⟨pre, hp, hpa⟩ := Close_last cX w1
  rw [ht, hi] at hp hpa
  refine ⟨added ++ pre, ?_, ?_⟩
  · rw [hp, hX, ha]
    simp
  · intro e he
    rcases List.mem_append.mp he with h1 | h1
    · exact hall e h1
    · exact hpa e h1

theorem writeHeader_last (o : Oracle) (cgi : CgiClient) (t id : Nat) :
    ∃ pre, (writeHeader o cgi t id).2.trace =
        cgi.trace ++ (pre ++ [Event.write (recordBytes t id [])]) ∧
      ∀ e ∈ pre, IsRecord t id e := by
  unfold writeHeader
  simp only
  split
  · exact stream_last (Ext.refl _ _) rfl rfl
      { cgi with request :=
        { cgi.request with lines := (readHeaderLines cgi.request.lines []).2 } } rfl
  · next pairs heq =>
    have hp := writePairs_ext
      (o.rangePairs (addHttpHeaders o.unicodeUpper (o.rangeHeaders (readHeaderLines cgi.request.lines []).1)
        pairs))
      { cgi with request :=
        { cgi.request with lines := (readHeaderLines cgi.request.lines []).2 } }
      (newWriter t id)
    split
    · next e cgi2 w2 heq2 =>
      rw [heq2] at hp
      exact stream_last (c := { cgi with request :=
        { cgi.request with lines := (readHeaderLines cgi.request.lines []).2 } })
        hp.1 hp.2.1 hp.2.2 cgi2 rfl
    · next cgi2 w2 heq2 =>
      rw [heq2] at hp
      exact stream_last (c := { cgi with request :=
        { cgi.request with lines := (readHeaderLines cgi.request.lines []).2 } })
        hp.1 hp.2.1 hp.2.2 cgi2 rfl

theorem writeBody_last (cgi : CgiClient) (t id : Nat) :
    ∃ pre, (writeBody cgi t id).2.trace =
        cgi.trace ++ (pre ++ [Event.write (recordBytes t id [])]) ∧
      ∀ e ∈ pre, IsRecord t id e := by
  rw [writeBody_eq]
  split
  · have hr := readBody_ext cgi.request.reads cgi (newWriter t id)
    exact stream_last hr.1 hr.2.1 hr.2.2 _ rfl
  · exact stream_last (Ext.refl _ _) rfl rfl cgi rfl

theorem afterParams_last (o : Oracle) (cgi : CgiClient) (id : Nat) :
    ∃ pre, (afterParams o cgi id).2.trace =
        (afterBegin cgi id).2.trace ++ (pre ++ [Event.write (recordBytes typeParams id [])]) ∧
      ∀ e ∈ pre, IsRecord typeParams id e :=
  writeHeader_last o (afterBegin cgi id).2 typeParams id

theorem afterStdin_last (o : Oracle) (cgi : CgiClient) (id : Nat) :
    ∃ stdin, (afterStdin o cgi id).2.trace = (afterParams o cgi id).2.trace ++ stdin ∧
      (∀ e ∈ stdin, IsRecord typeStdin id e) ∧ EndsWithTerminator typeStdin id stdin ∧
      ((cgi.request.Method ≠ ascii "GET" ∧ cgi.request.Method ≠ ascii "HEAD") →
        stdin ≠ []) := by
  unfold afterStdin
  split
  · obtain ⟨pre, hp, hall⟩ := writeBody_last (afterParams o cgi id).2 typeStdin id
    refine ⟨pre ++ [Event.write (recordBytes typeStdin id [])], hp, ?_, Or.inr ⟨pre, rfl⟩,
      fun _ => by simp⟩
    intro e he
    rcases List.mem_append.mp he with h | h
    · exact hall e h
    · exact ⟨[], by simpa using h⟩
  · next hm =>
    exact ⟨[], by simp, fun e he => absurd he (List.not_mem_nil _), Or.inl rfl,
      fun h => absurd h hm⟩

/-- The order of the events of a session before the deferred function: the
BeginRequest record, the Params records, the Stdin records, then the start of
the collector and what follows it. -/
theorem doRequestBody_order (o : Oracle) (cgi : CgiClient) (id : Nat) :
    ∃ params stdin tail, (doRequestBody o cgi id).2.trace =
        cgi.trace ++ Event.write (recordBytes typeBeginRequest id
          [0, 1, if cgi.request.KeepConn then 1 else 0, 0, 0, 0, 0, 0]) ::
          (params ++ stdin ++ tail) ∧
      (∀ e ∈ params, IsRecord typeParams id e) ∧ EndsWithTerminator typeParams id params ∧
      (∀ e ∈ stdin, IsRecord typeStdin id e) ∧ EndsWithTerminator typeStdin id stdin ∧
      (∀ e ∈ tail, TailEvent id e) ∧
      (Event.goReadResponse ∈ tail → params ≠ [] ∧
        ((cgi.request.Method ≠ ascii "GET" ∧ cgi.request.Method ≠ ascii "HEAD") →
          stdin ≠ [])) := by
  have hB := afterBegin_trace cgi id
  obtain ⟨pp, hP, hPall⟩ := afterParams_last o cgi id
  obtain ⟨ss, hS, hSall, hSend, hSne⟩ := afterStdin_last o cgi id
  have hPall2 : ∀ e ∈ pp ++ [Event.write (recordBytes typeParams id [])],
      IsRecord typeParams id e := by
    intro e he
    rcases List.mem_append.mp he with h | h
    · exact hPall e h
    · exact ⟨[], by simpa using h⟩
  have hnil : ∀ e ∈ ([] : List Event), TailEvent id e :=
    fun e he => absurd he (List.not_mem_nil _)
  have hnilP : ∀ e ∈ ([] : List Event), IsRecord typeParams id e :=
    fun e he => absurd he (List.not_mem_nil _)
  have hnilS : ∀ e ∈ ([] : List Event), IsRecord typeStdin id e :=
    fun e he => absurd he (List.not_mem_nil _)
  rw [doRequestBody_eq]
  split
  · refine ⟨[], [], [], ?_, hnilP, Or.inl rfl, hnilS, Or.inl rfl, hnil,
      fun h => absurd h (List.not_mem_nil _)⟩
    rw [hB]
    simp
  · split
    · refine ⟨pp ++ [Event.write (recordBytes typeParams id [])], [], [], ?_, hPall2,
        Or.inr ⟨pp, rfl⟩, hnilS, Or.inl rfl, hnil, fun h => absurd h (List.not_mem_nil _)⟩
      rw [hP, hB]
      simp
    · split
      · refine ⟨pp ++ [Event.write (recordBytes typeParams id [])], ss, [], ?_, hPall2,
          Or.inr ⟨pp, rfl⟩, hSall, hSend, hnil, fun h => absurd h (List.not_mem_nil _)⟩
        rw [hS, hP, hB]
        simp
      · obtain ⟨⟨added, ha, hall⟩, _⟩ := awaitResponse_ext o
          { (afterStdin o cgi id).2 with
            trace := (afterStdin o cgi id).2.trace ++ [Event.goReadResponse] } id
          (readResponse (afterStdin o cgi id).2.rres { buf := [], signals := [] })
        refine ⟨pp ++ [Event.write (recordBytes typeParams id [])], ss,
          Event.goReadResponse :: added, ?_, hPall2, Or.inr ⟨pp, rfl⟩, hSall, hSend, ?_,
          fun _ => ⟨by simp, hSne⟩⟩
        · rw [ha]
          show ((afterStdin o cgi id).2.trace ++ [Event.goReadResponse]) ++ added = _
          rw [hS, hP, hB]
          simp
        · intro e he
          rcases List.mem_cons.mp he with h | h
          · exact Or.inl h
          · exact Or.inr (Or.inl (hall e h))

/-- C14: in every run of `DoRequest` the trace is: the id taken from the pool, the
BeginRequest record, then the Params records, then the Stdin records, then a
tail without Begin, Params or Stdin records.  The Params records, when there
are any, end with the empty Params record, and so do the Stdin records.  The
start of the collector can only be in the tail: when the collector is started
the Params stream is written with its empty record, and so is the Stdin stream
when the method is neither GET nor HEAD. -/
theorem DoRequest_write_order (o : Oracle) (cgi : CgiClient) :
    ∃ params stdin tail, (DoRequest o cgi).2.trace =
        cgi.trace ++ Event.alloc o.allocId ::
          Event.write (recordBytes typeBeginRequest o.allocId
            [0, 1, if cgi.request.KeepConn then 1 else 0, 0, 0, 0, 0, 0]) ::
          (params ++ stdin ++ tail) ∧
      (∀ e ∈ params, IsRecord typeParams o.allocId e) ∧
      EndsWithTerminator typeParams o.allocId params ∧
      (∀ e ∈ stdin, IsRecord typeStdin o.allocId e) ∧
      EndsWithTerminator typeStdin o.allocId stdin ∧
      (∀ e ∈ tail, TailEvent o.allocId e) ∧
      (Event.goReadResponse ∈ tail → params ≠ [] ∧
        ((cgi.request.Method ≠ ascii "GET" ∧ cgi.request.Method ≠ ascii "HEAD") →
          stdin ≠ [])) := by
  obtain ⟨params, stdin, tail, ht, hp, hpe, hs, hse, htail, hgo⟩ := doRequestBody_order o
    { cgi with trace := cgi.trace ++ [Event.alloc o.allocId] } o.allocId
  refine ⟨params, stdin, tail ++ [Event.release o.allocId,
    Event.write (recordBytes typeEndRequest o.allocId [0, 0, 0, 200, 0, 0, 0, 0]),
    Event.release o.allocId, Event.close], ?_, hp, hpe, hs, hse, ?_, ?_⟩
  · show (deferred (doRequestBody o { cgi with trace := cgi.trace ++ [Event.alloc o.allocId] }
      o.allocId).2 o.allocId).trace = _
    rw [deferred_trace, ht]
    simp
  · intro e he
    rcases List.mem_append.mp he with h | h
    · exact htail e h
    · simp only [List.mem_cons, List.mem_singleton, List.mem_nil_iff, or_false] at h
      rcases h with h | h | h | h
      · exact Or.inr (Or.inr (Or.inl h))
      · exact Or.inr (Or.inl ⟨_, h⟩)
      · exact Or.inr (Or.inr (Or.inl h))
      · exact Or.inr (Or.inr (Or.inr h))
  · intro hmem
    apply hgo
    rcases List.mem_append.mp hmem with h | h
    · exact h
    · simp at h

/-! ## C19: the EndRequest record of the deferred function -/

theorem IsRecord.notEndRequest {t id : Nat} {e : Event} (h : IsRecord t id e)
    (ht : t % 256 ≠ typeEndRequest) : e.notEndRequest := by
  obtain ⟨c, rfl⟩ := h
  intro b hb
  cases hb
  rw [recordBytes_type]
  intro h3
  exact ht (Option.some.inj h3)

theorem atSelect_before (o : Oracle) (cgi : CgiClient) :
    ∃ pre, (atSelect o cgi).trace = cgi.trace ++ pre ++ [Event.goReadResponse] ∧
      ∀ e ∈ pre, e.notEndRequest := by
  have h0 : ExtT Event.notEndRequest cgi
      { cgi with trace := cgi.trace ++ [Event.alloc o.allocId] } :=
    ExtT.single cgi _ (fun b hb => by cases hb)
  have h1 : ExtT Event.notEndRequest { cgi with trace := cgi.trace ++ [Event.alloc o.allocId] }
      (afterBegin { cgi with trace := cgi.trace ++ [Event.alloc o.allocId] } o.allocId).2 :=
    (afterBegin_ext _ o.allocId).monoT (fun e h => h.notEndRequest (by decide))
  have h2 := (afterParams_ext o { cgi with trace := cgi.trace ++ [Event.alloc o.allocId] }
    o.allocId).monoT (fun e h => IsRecord.notEndRequest h (by decide))
  have h3 := (afterStdin_ext o { cgi with trace := cgi.trace ++ [Event.alloc o.allocId] }
    o.allocId).monoT (fun e h => IsRecord.notEndRequest h.2 (by decide))
  obtain ⟨⟨pre, hp, hall⟩, _⟩ := ((h0.transT h1).transT h2).transT h3
  refine ⟨pre, ?_, hall⟩
  unfold atSelect
  simp only
  rw [hp]

/-- C19: on every exit path of `DoRequest` the trace ends with the events of the
deferred function: a release of the id, the write of an EndRequest record with
application status 200 and protocol status 0 for the session id, a second
release, and the close of the transport, which nothing before closes.  On the
timeout path the EndRequest records written are exactly two: the one with
application status 502 and protocol status 1 right after the start of the
collector, then the one of the deferred function. -/
theorem DoRequest_deferred_end_request (o : Oracle) (cgi : CgiClient) :
    (∃ pre, (DoRequest o cgi).2.trace =
        cgi.trace ++ pre ++ [Event.release o.allocId,
          Event.write ([1, typeEndRequest, o.allocId % 65536 / 256 % 256,
            o.allocId % 65536 % 256, 0, 8, 0, 0] ++ [0, 0, 0, 200, 0, 0, 0, 0]),
          Event.release o.allocId, Event.close] ∧
      Event.close ∉ pre) ∧
    (ReachesSelect o cgi →
      (o.timerFirst = true ∨
        (readResponse cgi.rres { buf := [], signals := [] }).signals = []) →
      ∃ pre, (DoRequest o cgi).2.trace =
        cgi.trace ++ pre ++ [Event.goReadResponse,
          Event.write ([1, typeEndRequest, o.allocId % 65536 / 256 % 256,
            o.allocId % 65536 % 256, 0, 8, 0, 0] ++ [0, 0, 1, 246, 1, 0, 0, 0]),
          Event.release o.allocId,
          Event.write ([1, typeEndRequest, o.allocId % 65536 / 256 % 256,
            o.allocId % 65536 % 256, 0, 8, 0, 0] ++ [0, 0, 0, 200, 0, 0, 0, 0]),
          Event.release o.allocId, Event.close] ∧
        ∀ e ∈ pre, e.notEndRequest) := by
  have h200 := recordBytes_eight typeEndRequest o.allocId [0, 0, 0, 200, 0, 0, 0, 0] rfl
  constructor
  · obtain ⟨rest, hr, hall⟩ := DoRequest_trace o cgi
    refine ⟨Event.alloc o.allocId ::
      Event.write (recordBytes typeBeginRequest o.allocId
        [0, 1, if cgi.request.KeepConn then 1 else 0, 0, 0, 0, 0, 0]) :: rest, ?_, ?_⟩
    · rw [hr, h200]
      simp
      decide
    · intro hc
      rcases List.mem_cons.mp hc with h | h
      · cases h
      · rcases List.mem_cons.mp h with h1 | h1
        · cases h1
        · exact (hall _ h1).ne_close rfl
  · intro hR hT
    obtain ⟨pre, hp, hall⟩ := atSelect_before o cgi
    refine ⟨pre, ?_, hall⟩
    rw [DoRequest_of_reaches o cgi hR, awaitResponse_timer o _ _ _ hT]
    simp only [deferred_trace, writeEndRequest_trace, hp, List.append_assoc]
    rw [recordBytes_eight typeEndRequest o.allocId
      (putUint32 (toUint32 502) ++ [1 % 256, 0, 0, 0]) (by simp [putUint32]), h200]
    have h502 : putUint32 (toUint32 502) = [0, 0, 1, 246] := by decide
    rw [h502]
    rfl

/-- Witness of C19: a GET session whose responder never answers. -/
theorem DoRequest_deferred_end_request_witness :
    ReachesSelect (sampleOracle false) (sampleClient (sampleRequest (ascii "GET") [] []) []) ∧
    ∃ pre, (DoRequest (sampleOracle false)
        (sampleClient (sampleRequest (ascii "GET") [] []) [])).2.trace =
      (sampleClient (sampleRequest (ascii "GET") [] []) []).trace ++ pre ++
        [Event.goReadResponse,
          Event.write ([1, typeEndRequest, (sampleOracle false).allocId % 65536 / 256 % 256,
            (sampleOracle false).allocId % 65536 % 256, 0, 8, 0, 0] ++
            [0, 0, 1, 246, 1, 0, 0, 0]),
          Event.release (sampleOracle false).allocId,
          Event.write ([1, typeEndRequest, (sampleOracle false).allocId % 65536 / 256 % 256,
            (sampleOracle false).allocId % 65536 % 256, 0, 8, 0, 0] ++
            [0, 0, 0, 200, 0, 0, 0, 0]),
          Event.release (sampleOracle false).allocId, Event.close] ∧
      ∀ e ∈ pre, e.notEndRequest :=
  ⟨by decide,
    (DoRequest_deferred_end_request (sampleOracle false)
      (sampleClient (sampleRequest (ascii "GET") [] []) [])).2 (by decide) (Or.inr rfl)⟩

end Fcgi
